import Mathlib

/-!
Verification of the build-vs-buy calculator and FAQ search widgets
(src/src/buildvsbuy/index.ts).

The embedding models JS strings as lists of characters (`Str`), DOM trees as a
mutual inductive (`Dom` / `DomList`), JS numbers flowing through the cost
calculator as rationals (`ℚ`, with `jsRound` for `Math.round`), and the FAQ
search controller as an explicit state machine over a list of items.

Modelling choices, recorded once here:
* `String.prototype.toLowerCase` is modelled by ASCII lowercasing
  (`Char.toLower`); `trim` by stripping Unicode/ASCII whitespace characters on
  both ends.  The claims under study do not depend on non-ASCII case mapping.
* A `mark` element's `class` attribute is modelled as a single string compared
  for equality (the engine only ever writes the exact class
  `faq-search-highlight`).
* `Node.normalize()` (which the source calls on the parent of every removed
  marker) merges adjacent text children and drops empty text nodes throughout
  a subtree; `normalizeDom` models exactly that.
* `highlightMatchesInElement` runs `while (true)` around
  `lower.indexOf(q, pos)`.  When the query is non-empty but trims to the
  empty string, `indexOf` keeps returning the cursor and the loop never
  terminates; the embedding returns `none` for that diverging case and
  `some` of the rewritten tree otherwise.
-/

set_option maxRecDepth 40000

/-! §1 Strings (normalizeText, indexOf, slice — lines 468, 531–581) -/

abbrev Str := List Char

/-- `text.toLowerCase()` per character (ASCII case mapping). -/
def jsLower (c : Char) : Char := c.toLower

/-- `s.trim()`: strip whitespace from both ends. -/
def trimStr (s : Str) : Str :=
  ((s.dropWhile Char.isWhitespace).reverse.dropWhile Char.isWhitespace).reverse

/-- `normalizeText` (line 468): `text.toLowerCase().trim()`. -/
def normalizeText (s : Str) : Str := trimStr (s.map jsLower)

/-- `s.slice(a, b)` for `0 ≤ a ≤ b` (clamped at the end of the string). -/
def sliceStr (s : Str) (a b : Nat) : Str := (s.drop a).take (b - a)

/-- Does `q` occur in `hay` starting exactly at index `i`? -/
def takesAt (hay q : Str) (i : Nat) : Bool := (hay.drop i).take q.length == q

/-- `hay.indexOf(q, start)` for non-empty `q`: the least index `i ≥ start`
where `q` occurs, if any. -/
def strFind (hay q : Str) (start : Nat) : Option Nat :=
  (List.range (hay.length + 1)).find? (fun i => decide (start ≤ i) && takesAt hay q i)

/-- `hay.includes(q)` for non-empty `q`. -/
def strOccurs (hay q : Str) : Bool := (strFind hay q 0).isSome

/-! §2 Per-text-node splitting (the cursor loop of lines 550–575).
`splitGo original lower q pos fuel` emits the plain/marked fragments the
source pushes into its document fragment: indices are found in `lower`
(the normalized node text) but slices are taken from `original`, exactly as
in the source.  `fuel` bounds the loop; `lower.length + 1` steps always
suffice because the cursor strictly advances for non-empty `q`. -/

inductive Frag where
  | plain (s : Str)
  | marked (s : Str)
deriving DecidableEq

def fragStr : Frag → Str
  | .plain s => s
  | .marked s => s

def fragsStr (fs : List Frag) : Str := (fs.map fragStr).flatten

def splitGo (original lower q : Str) : Nat → Nat → List Frag
  | _, 0 => []
  | pos, fuel + 1 =>
    match strFind lower q pos with
    | none => [Frag.plain (original.drop pos)]
    | some idx =>
        (if pos < idx then [Frag.plain (sliceStr original pos idx)] else []) ++
          (Frag.marked (sliceStr original idx (idx + q.length)) ::
            splitGo original lower q (idx + q.length) fuel)

def splitMatches (original q : Str) : List Frag :=
  splitGo original (normalizeText original) q 0 ((normalizeText original).length + 1)

/-! §3 DOM trees -/

mutual
inductive Dom where
  | text (s : Str)
  | elem (tag cls : Str) (kids : DomList)
deriving DecidableEq
inductive DomList where
  | nil
  | cons (d : Dom) (ds : DomList)
deriving DecidableEq
end

def DomList.append : DomList → DomList → DomList
  | .nil, l => l
  | .cons d ds, l => .cons d (ds.append l)

/-- Convenience constructor from a `List`. -/
def toDomList : List Dom → DomList
  | [] => .nil
  | d :: ds => .cons d (toDomList ds)

mutual
/-- `node.textContent`: the flattened text of the subtree. -/
def textContent : Dom → Str
  | .text s => s
  | .elem _ _ kids => textContentL kids
def textContentL : DomList → Str
  | .nil => []
  | .cons d ds => textContent d ++ textContentL ds
end

/-- `HIGHLIGHT_CLASS` (line 453). -/
def HIGHLIGHT_CLASS : Str := "faq-search-highlight".data

/-- `HIGHLIGHT_TAG` (line 454). -/
def HIGHLIGHT_TAG : Str := "mark".data

/-- `pushText` / `pushMark` (lines 558–564): a plain fragment becomes a text
node, a marked fragment becomes `<mark class="faq-search-highlight">` holding
one text node. -/
def fragDom : Frag → Dom
  | .plain s => .text s
  | .marked s => .elem HIGHLIGHT_TAG HIGHLIGHT_CLASS (.cons (.text s) .nil)

def fragsToDoms : List Frag → DomList
  | [] => .nil
  | f :: fs => .cons (fragDom f) (fragsToDoms fs)

mutual
/-- `highlightMatchesInElement`, main walk (lines 536–580) with the
normalized non-empty query `q`: every text descendant whose normalized text
contains `q` is replaced in place by its fragment sequence; all other nodes
are kept. -/
def hlDom (q : Str) : Dom → Dom
  | .text s => .text s
  | .elem t c kids => .elem t c (hlKids q kids)
def hlKids (q : Str) : DomList → DomList
  | .nil => .nil
  | .cons d ds => (hlChild q d).append (hlKids q ds)
def hlChild (q : Str) : Dom → DomList
  | .text s =>
      if strOccurs (normalizeText s) q then fragsToDoms (splitMatches s q)
      else .cons (.text s) .nil
  | .elem t c kids => .cons (.elem t c (hlKids q kids)) .nil
end

/-- `highlightMatchesInElement` (lines 531–581).  Empty query: early return
(no-op).  Non-empty query that normalizes to the empty string: the source's
`while (true)` loop never terminates (`indexOf` of an empty needle returns
the cursor), modelled as `none`.  Otherwise the rewritten container. -/
def highlightMatchesInElement (container : Dom) (query : Str) : Option Dom :=
  if query = [] then some container
  else if normalizeText query = [] then none
  else some (hlDom (normalizeText query) container)

/-- Is this node `<mark class="faq-search-highlight">`? (selector on line 505) -/
def isHLMark : Dom → Bool
  | .text _ => false
  | .elem t c _ => t == HIGHLIGHT_TAG && c == HIGHLIGHT_CLASS

def anyHLMark : DomList → Bool
  | .nil => false
  | .cons d ds => isHLMark d || anyHLMark ds

/-- One step of `Node.normalize()`: prepend string `s` as a text node,
merging with an adjacent text head and dropping empty text. -/
def mtCons (s : Str) (l : DomList) : DomList :=
  match l with
  | .cons (.text s2) r =>
      if s ++ s2 = [] then r else .cons (.text (s ++ s2)) r
  | .nil => if s = [] then .nil else .cons (.text s) .nil
  | .cons (.elem t c kids) r =>
      if s = [] then .cons (.elem t c kids) r else .cons (.text s) (.cons (.elem t c kids) r)

/-- `Node.normalize()` over a child list (recursing into the whole subtree):
adjacent text nodes merged, empty text nodes dropped. -/
def normalizeKids : DomList → DomList
  | .nil => .nil
  | .cons (.text s) ds => mtCons s (normalizeKids ds)
  | .cons (.elem t c kids) ds => .cons (.elem t c (normalizeKids kids)) (normalizeKids ds)

def normalizeDom : Dom → Dom
  | .text s => .text s
  | .elem t c kids => .elem t c (normalizeKids kids)

mutual
/-- `clearHighlights` (lines 504–514): every descendant
`mark.faq-search-highlight` is replaced by a text node holding its own
`textContent`, and — because the source calls `parent.normalize()` after each
replacement — the subtree of every element that directly contained such a
marker is normalized.  The container node itself is never replaced
(`querySelectorAll` only returns descendants). -/
def clearHighlights : Dom → Dom
  | .text s => .text s
  | .elem t c kids =>
      if anyHLMark kids then normalizeDom (.elem t c (clearKids kids))
      else .elem t c (clearKids kids)
def clearKids : DomList → DomList
  | .nil => .nil
  | .cons d ds =>
      .cons (if isHLMark d then .text (textContent d) else clearHighlights d) (clearKids ds)
end

/-! Structural predicates used to state the round-trip theorem. -/

def headIsText : DomList → Bool
  | .cons (.text _) _ => true
  | _ => false

/-- A child list is normalized: no empty text nodes, no two adjacent text
nodes, recursively. -/
def normedKids : DomList → Bool
  | .nil => true
  | .cons (.text s) ds => decide (s ≠ []) && !headIsText ds && normedKids ds
  | .cons (.elem _ _ kids) ds => normedKids kids && normedKids ds

def normedDom : Dom → Bool
  | .text s => decide (s ≠ [])
  | .elem _ _ kids => normedKids kids

/-- No descendant is a highlight marker. -/
def hlFreeKids : DomList → Bool
  | .nil => true
  | .cons (.text _) ds => hlFreeKids ds
  | .cons (.elem t c kids) ds =>
      !(t == HIGHLIGHT_TAG && c == HIGHLIGHT_CLASS) && hlFreeKids kids && hlFreeKids ds

def hlFreeDom : Dom → Bool
  | .text _ => true
  | .elem _ _ kids => hlFreeKids kids

/-! Element-skeleton views used for the frame claim about `clearHighlights`. -/

/-- Forget all text nodes, keeping the element structure. -/
def eraseKids : DomList → DomList
  | .nil => .nil
  | .cons (.text _) ds => eraseKids ds
  | .cons (.elem t c kids) ds => .cons (.elem t c (eraseKids kids)) (eraseKids ds)

def eraseTexts : Dom → Dom
  | .text s => .text s
  | .elem t c kids => .elem t c (eraseKids kids)

/-- Remove every highlight-marker element (with its subtree) from an
element skeleton. -/
def dropHLKids : DomList → DomList
  | .nil => .nil
  | .cons (.text s) ds => .cons (.text s) (dropHLKids ds)
  | .cons (.elem t c kids) ds =>
      if t == HIGHLIGHT_TAG && c == HIGHLIGHT_CLASS then dropHLKids ds
      else .cons (.elem t c (dropHLKids kids)) (dropHLKids ds)

def dropHLRoot : Dom → Dom
  | .text s => .text s
  | .elem t c kids => .elem t c (dropHLKids kids)

mutual
/-- Literal reading of the implicit frame claim: replace each
`mark.faq-search-highlight` by a text node and leave every other node
untouched (no coalescing of adjacent text).  Used only to exhibit where the
actual `clearHighlights` differs. -/
def replMarksDom : Dom → Dom
  | .text s => .text s
  | .elem t c kids => .elem t c (replMarksKids kids)
def replMarksKids : DomList → DomList
  | .nil => .nil
  | .cons d ds =>
      .cons (if isHLMark d then .text (textContent d) else replMarksDom d) (replMarksKids ds)
end

/-! Apply/clear cycles on one container. -/

inductive FaqOp where
  | applyQ (q : Str)
  | clearOp

/-- One step of an apply/clear cycle.  A diverging highlight call (query that
trims to nothing) never returns, so no subsequent state exists; it is mapped
to the unchanged container. -/
def runFaqOp (d : Dom) : FaqOp → Dom
  | .applyQ q => (highlightMatchesInElement d q).getD d
  | .clearOp => clearHighlights d

def runFaqOps (d : Dom) (ops : List FaqOp) : Dom := ops.foldl runFaqOp d

/-! §4 Cost model (`calculateCosts`, lines 61–126).  JS numbers are modelled
as rationals; `Math.round` as `jsRound` (floor of `x + 1/2`, which is what
`Math.round` computes). -/

def jsRound (x : ℚ) : ℤ := ⌊x + 1/2⌋

structure CalculatorState where
  engineers : ℚ
  salary : ℚ
  users : ℚ
  timeline : ℚ
  hasExistingAuth : Bool

structure BuildCosts where
  total : ℚ
  initialDevelopment : ℚ
  ongoingMaintenance : ℚ
  securityAndCompliance : ℚ
  opportunityCost : ℚ
  oneTimeTransition : ℚ

structure SaasCosts where
  total : ℚ
  userLicensing : ℚ
  integrationWork : ℚ
  ongoingSupport : ℚ
  migrationCost : ℚ

structure FusionauthCosts where
  total : ℚ
  licensing : ℚ
  integration : ℚ
  maintenance : ℚ

structure CostBreakdown where
  build : BuildCosts
  saas : SaasCosts
  fusionauth : FusionauthCosts
  savingsVsBuild : ℚ

/-- `calculateCosts` (lines 61–126), transcribed term by term. -/
def calculateCosts (state : CalculatorState) : CostBreakdown :=
  let overheadMultiplier : ℚ := 1.5
  let buildInitialDevelopment : ℚ :=
    (jsRound (state.engineers * (state.salary * overheadMultiplier) * 0.5) : ℤ)
  let buildOngoingMaintenance : ℚ :=
    (jsRound ((state.timeline * 78 * (state.salary * overheadMultiplier)) / 2080) : ℤ)
  let buildSecurityAndCompliance : ℚ := (jsRound (state.timeline * 80000) : ℤ)
  let buildOpportunityCost : ℚ := (jsRound (state.timeline * 6120) : ℤ)
  let buildTransitionOneTime : ℚ := 50000
  let buildMaintenanceExisting : ℚ := 85000 * state.timeline
  let buildTotal : ℚ :=
    if state.hasExistingAuth then buildTransitionOneTime + buildMaintenanceExisting
    else buildInitialDevelopment + buildOngoingMaintenance +
      buildSecurityAndCompliance + buildOpportunityCost
  let saasMigrationCost : ℚ := if state.hasExistingAuth then 100000 else 0
  let saasUserLicensing : ℚ := (jsRound (state.users * 0.05 * 12 * state.timeline) : ℤ)
  let saasIntegrationWorkBase : ℚ :=
    (jsRound (state.engineers * (state.salary * overheadMultiplier) * 0.25) : ℤ)
  let saasIntegrationWork : ℚ := saasIntegrationWorkBase + saasMigrationCost
  let saasOngoingSupport : ℚ :=
    (jsRound ((state.timeline * 104 * (state.salary * overheadMultiplier)) / 2080) : ℤ)
  let saasTotal : ℚ := saasUserLicensing + saasIntegrationWork + saasOngoingSupport
  let fusLicensing : ℚ := (jsRound (state.users * 0.024 * 12 * state.timeline) : ℤ)
  let fusIntegration : ℚ :=
    (jsRound (state.engineers * (state.salary * overheadMultiplier) * 0.04) : ℤ)
  let fusMaintenance : ℚ :=
    (jsRound ((state.timeline * 26 * (state.salary * overheadMultiplier)) / 2080) : ℤ)
  let fusTotal : ℚ := fusLicensing + fusIntegration + fusMaintenance
  { build :=
      { total := buildTotal
        initialDevelopment :=
          if state.hasExistingAuth then buildTransitionOneTime else buildInitialDevelopment
        ongoingMaintenance :=
          if state.hasExistingAuth then buildMaintenanceExisting else buildOngoingMaintenance
        securityAndCompliance :=
          if state.hasExistingAuth then 0 else buildSecurityAndCompliance
        opportunityCost := if state.hasExistingAuth then 0 else buildOpportunityCost
        oneTimeTransition := if state.hasExistingAuth then buildTransitionOneTime else 0 }
    saas :=
      { total := saasTotal
        userLicensing := saasUserLicensing
        integrationWork := saasIntegrationWork
        ongoingSupport := saasOngoingSupport
        migrationCost := saasMigrationCost }
    fusionauth :=
      { total := fusTotal
        licensing := fusLicensing
        integration := fusIntegration
        maintenance := fusMaintenance }
    savingsVsBuild := buildTotal - fusTotal }

/-- A monetary amount is a whole number of units. -/
def IsWhole (x : ℚ) : Prop := x.den = 1

/-! §5 Reading the calculator state (`queryNumberInput`, `queryBooleanInput`,
`readState`, lines 34–59).  An input surface is modelled after parsing:
`none` = element missing, `some none` = `Number(el.value)` not finite,
`some (some x)` = finite value `x`. -/

structure RawInputs where
  engineers : Option (Option ℚ)
  salary : Option (Option ℚ)
  users : Option (Option ℚ)
  timeline : Option (Option ℚ)
  auth : Option Bool

/-- `queryNumberInput` (lines 34–39): missing element or non-finite value
falls back; any finite value is returned as-is (there is no range check). -/
def queryNumberInput : Option (Option ℚ) → ℚ → ℚ
  | none, fallback => fallback
  | some none, fallback => fallback
  | some (some v), _ => v

/-- `queryBooleanInput` (lines 41–45). -/
def queryBooleanInput : Option Bool → Bool → Bool
  | none, fallback => fallback
  | some b, _ => b

/-- `readState` (lines 51–59). -/
def readState (inp : RawInputs) : CalculatorState :=
  { engineers := queryNumberInput inp.engineers 3
    salary := queryNumberInput inp.salary 150000
    users := queryNumberInput inp.users 10000
    timeline := queryNumberInput inp.timeline 3
    hasExistingAuth := queryBooleanInput inp.auth false }

/-! §6 FAQ search controller (lines 439–716).  An item is modelled by its
clickable question header (present or not), its title and answer regions
(the two subtrees the engine highlights; matching and clearing act on these),
the visibility of its answer (the state the host page's toggle interaction
flips), its `aria-expanded` fallback, and the `data-opened-by-search`
attribute.  `openedBy` is ghost state recording who performed the click that
last turned the item open; it influences nothing. -/

inductive Actor where
  | user
  | search
deriving DecidableEq

structure Item where
  wrapper : Bool
  title : Option Dom
  answer : Option Dom
  visOpen : Bool
  aria : Bool
  attr : Bool
  openedBy : Option Actor
deriving DecidableEq

/-- Controller state: the items in document order, `searchOpenedItems` as a
list of item indices, and a ghost log of scroll targets (most recent first). -/
structure CtrlState where
  items : List Item
  searchOpened : List Nat
  scrolls : List Nat
deriving DecidableEq

/-- Modelled from the spec: the host page's Webflow interaction behind
`questionWrapper.click()` is not part of this repository; per the spec it is
"the same toggle action a user click would perform", so a click toggles the
answer's visibility.  The `data-opened-by-search` attribute is set to true by
the click listener `ensureClickTagging` installs (lines 593–602), which runs
on every click, simulated or real.  `openedBy` is ghost provenance. -/
def clickWrapper (a : Actor) (it : Item) : Item :=
  { it with
    visOpen := !it.visOpen
    attr := true
    openedBy := if it.visOpen then none else some a }

/-- `isFaqItemOpen` (lines 523–529): visibility of the answer when present,
otherwise the `aria-expanded` fallback. -/
def isFaqItemOpen (it : Item) : Bool := if it.answer.isSome then it.visOpen else it.aria

/-- `isMatch` (lines 495–498) with an already-normalized query. -/
def isMatch : Option Dom → Str → Bool
  | none, _ => false
  | some el, q => strOccurs (normalizeText (textContent el)) q

/-- `itemMatchesQuery` (lines 500–502). -/
def itemMatchesQuery (it : Item) (q : Str) : Bool := isMatch it.title q || isMatch it.answer q

/-- A call of `highlightMatchesInElement` from the controller; the argument
is normalized and non-empty there, so the `getD` default is never taken. -/
def hlRegion (d : Dom) (q : Str) : Dom := (highlightMatchesInElement d q).getD d

/-- `clearHighlights(els.item)` (line 617, 655) restricted to the modelled
regions: the engine only ever inserts markers inside the title and answer
subtrees, and those subtrees contain the markers' parents. -/
def clearItem (it : Item) : Item :=
  { it with title := it.title.map clearHighlights, answer := it.answer.map clearHighlights }

/-- Lines 629–630: highlight within both question title and answer. -/
def hlItem (q : Str) (it : Item) : Item :=
  { it with
    title := it.title.map (fun d => hlRegion d q)
    answer := it.answer.map (fun d => hlRegion d q) }

/-- `openFaqItem` (lines 583–591): no-op without a question wrapper; no-op if
the `data-opened-by-search` attribute is already set; otherwise simulate a
click, set the attribute and record the item in the search-opened set. -/
def openFaqItem (s : CtrlState) (i : Nat) : CtrlState :=
  match s.items.get? i with
  | none => s
  | some it =>
      if !it.wrapper then s
      else if it.attr then s
      else
        { s with
          items := s.items.set i { clickWrapper .search it with attr := true }
          searchOpened := i :: s.searchOpened }

/-- The close action of lines 658–663 / 672–677: click the wrapper if the
item is currently open, then remove the attribute. -/
def closeItem (it : Item) : Item :=
  { (if isFaqItemOpen it && it.wrapper then clickWrapper .search it else it) with attr := false }

/-- The `items.forEach` passes of lines 656–665 and 670–679: every item in
the search-opened set failing `keep` is closed and dropped from the set. -/
def closeGo (opened : List Nat) (keep : Item → Bool) : Nat → List Item → List Item
  | _, [] => []
  | i, it :: its =>
      (if opened.contains i && !(keep it) then closeItem it else it) ::
        closeGo opened keep (i + 1) its

def closeSearchOpened (s : CtrlState) (keep : Item → Bool) : CtrlState :=
  { s with
    items := closeGo s.searchOpened keep 0 s.items
    searchOpened := s.searchOpened.filter (fun i =>
      match s.items.get? i with
      | some it => keep it
      | none => true) }

/-- The `firstMatchedItem` of the forEach in lines 620–641: index of the
first item, in document order, matching the normalized query. -/
def firstMatchIdx (q : Str) : Nat → List Item → Option Nat
  | _, [] => none
  | i, it :: its => if itemMatchesQuery it q then some i else firstMatchIdx q (i + 1) its

/-- `findFirstMatchAndAct` (lines 612–649): normalize the query (empty →
return), clear previous highlights everywhere, highlight title and answer of
every matching item, then scroll to the first matching item (ghost log) and
run `openFaqItem` on it. -/
def findFirstMatchAndAct (s : CtrlState) (query : Str) : CtrlState :=
  if normalizeText query = [] then s
  else
    let q := normalizeText query
    let cleared := s.items.map clearItem
    let items2 := cleared.map (fun it => if itemMatchesQuery it q then hlItem q it else it)
    match firstMatchIdx q 0 cleared with
    | none => { s with items := items2 }
    | some f => openFaqItem { s with items := items2, scrolls := f :: s.scrolls } f

/-- `onSearch` (lines 652–681): whitespace-only value → clear all highlights
and close everything the search opened; otherwise close the search-opened
items that no longer match, then `findFirstMatchAndAct`. -/
def onSearch (s : CtrlState) (value : Str) : CtrlState :=
  if trimStr value = [] then
    closeSearchOpened { s with items := s.items.map clearItem } (fun _ => false)
  else
    findFirstMatchAndAct (closeSearchOpened s (fun it => itemMatchesQuery it (normalizeText value)))
      value

/-- External events: a direct user click on an item's question header (only
possible when the wrapper exists), or a (debounced) search execution. -/
inductive Event where
  | userClick (i : Nat)
  | search (value : Str)

def step (s : CtrlState) : Event → CtrlState
  | .userClick i =>
      match s.items.get? i with
      | some it => if it.wrapper then { s with items := s.items.set i (clickWrapper .user it) } else s
      | none => s
  | .search v => onSearch s v

def run (s : CtrlState) (es : List Event) : CtrlState := es.foldl step s

/-- Page-load state of an item: collapsed, unmarked, ghost provenance empty. -/
def initOK (it : Item) : Bool := !it.visOpen && !it.attr && decide (it.openedBy = none)

def mkInit (items0 : List Item) : CtrlState := ⟨items0, [], []⟩

/-- Reachable controller states: anything produced by a run of events from a
page-load state. -/
def Reach (s : CtrlState) : Prop :=
  ∃ items0 es, items0.all initOK = true ∧ s = run (mkInit items0) es

/-! §6b Auxiliary definitions used to state and prove the theorems. -/

/-- A run of text nodes. -/
def textsOf : List Str → DomList
  | [] => .nil
  | s :: ss => .cons (.text s) (textsOf ss)

/-- Top level of a child list is normalized: no empty text node, no two
adjacent text nodes (shallow version of `normedKids`). -/
def topNormed : DomList → Bool
  | .nil => true
  | .cons (.text s) ds => decide (s ≠ []) && !headIsText ds && topNormed ds
  | .cons (.elem _ _ _) ds => topNormed ds

/-- Per-item invariant of reachable controller states: an open item has a
clickable wrapper, and an answered open item carries the marker attribute. -/
def invB (it : Item) : Bool :=
  (!it.visOpen || it.wrapper) && (!(it.answer.isSome && it.visOpen) || it.attr)

def invAll (s : CtrlState) : Prop :=
  ∀ i it, s.items.get? i = some it → invB it = true

/-- Set invariant of reachable controller states: every member of the
search-opened set is a valid index whose item carries the marker attribute. -/
def setInv (s : CtrlState) : Prop :=
  ∀ i, i ∈ s.searchOpened → ∃ it, s.items.get? i = some it ∧ it.attr = true

/-! §7 Concrete instances used by witnesses and counterexamples. -/

/-- A container whose only text node has leading whitespace. -/
def exC2 : Dom := .elem "div".data [] (toDomList [.text " api".data])

/-- A normalized, marker-free container with nested markup. -/
def exC1 : Dom :=
  .elem "div".data []
    (toDomList [.text "the api docs".data, .elem "b".data [] (toDomList [.text "api api".data])])

def exC1h : Dom := (highlightMatchesInElement exC1 "API".data).getD (.text [])

/-- A container with a highlight marker between two text siblings. -/
def exC10 : Dom :=
  .elem "div".data []
    (toDomList
      [.text "a".data, .elem HIGHLIGHT_TAG HIGHLIGHT_CLASS (toDomList [.text "x".data]),
        .text "b".data])

def exTitleA : Dom := .elem "h3".data [] (toDomList [.text "alpha".data])

def exAnsA : Dom := .elem "div".data [] (toDomList [.text "beta".data])

/-- One FAQ item: clickable header, title "alpha", answer "beta", collapsed. -/
def exItemA : Item := ⟨true, some exTitleA, some exAnsA, false, false, false, none⟩

def exInit : CtrlState := mkInit [exItemA]

/-- Search for "alp" opens the single matching item. -/
def sS1 : CtrlState := run exInit [.search "alp".data]

def evsC6 : List Event := [.search "alp".data, .userClick 0, .userClick 0]

/-- Search opened the item, then the user closed it and reopened it. -/
def sC6a : CtrlState := run exInit evsC6

/-- ... and a later non-matching query auto-closes the user-reopened item. -/
def sC6b : CtrlState := step sC6a (.search "zzz".data)

/-- The user opened the item directly; the search never touched it. -/
def sC6w : CtrlState := run exInit [.userClick 0]

/-- The user opened and closed the item, leaving the marker attribute set;
the following search then finds it as the first match. -/
def sC5x : CtrlState := run exInit [.userClick 0, .userClick 0, .search "alp".data]

def st3 : CalculatorState := ⟨3, 150000, 10000, 3, true⟩

def st4 : CalculatorState := ⟨3, 150000, 10000, 1/3, true⟩

def st4w : CalculatorState := ⟨3, 150000, 10000, 3, false⟩

/-- Engineers input present with the finite but out-of-range value −5. -/
def inpNeg : RawInputs := ⟨some (some (-5)), none, none, none, none⟩

/-- Missing, non-finite and present inputs mixed. -/
def inpW : RawInputs := ⟨none, some none, some (some 99), none, some true⟩

def s1item0 : Item := (sS1.items.get? 0).getD exItemA

def exWs : Str := "   ".data

/-! §8 Basic lemmas about the splitting loop. -/

@[simp] theorem textContent_text (s : Str) : textContent (.text s) = s := rfl

@[simp] theorem textContent_elem (t c : Str) (ks : DomList) :
    textContent (.elem t c ks) = textContentL ks := rfl

@[simp] theorem textContentL_nil : textContentL .nil = [] := rfl

@[simp] theorem textContentL_cons (d : Dom) (ds : DomList) :
    textContentL (.cons d ds) = textContent d ++ textContentL ds := rfl

theorem strFind_some {hay q : Str} {st i : Nat} (h : strFind hay q st = some i) :
    st ≤ i ∧ takesAt hay q i = true := by
  have h2 := List.find?_some h
  simp only [Bool.and_eq_true, decide_eq_true_eq] at h2
  exact h2

theorem takesAt_bounds {hay q : Str} {i : Nat} (hq : q ≠ []) (h : takesAt hay q i = true) :
    i + q.length ≤ hay.length ∧ sliceStr hay i (i + q.length) = q := by
  unfold takesAt at h
  rw [beq_iff_eq] at h
  have hlen : ((hay.drop i).take q.length).length = q.length := by rw [h]
  rw [List.length_take, List.length_drop] at hlen
  have hq1 : 1 ≤ q.length := List.length_pos.mpr hq
  have hle : i + q.length ≤ hay.length := by omega
  refine ⟨hle, ?_⟩
  unfold sliceStr
  have : i + q.length - i = q.length := by omega
  rw [this, h]

theorem slice_drop_concat (s : Str) {a b : Nat} (hab : a ≤ b) :
    sliceStr s a b ++ s.drop b = s.drop a := by
  unfold sliceStr
  have hd : s.drop b = (s.drop a).drop (b - a) := by
    rw [List.drop_drop]
    congr 1
    omega
  rw [hd, List.take_append_drop]

theorem splitGo_concat (original lower q : Str) (hq : q ≠ []) :
    ∀ fuel pos, pos ≤ lower.length → lower.length + 1 - pos ≤ fuel →
      fragsStr (splitGo original lower q pos fuel) = original.drop pos := by
  intro fuel
  induction fuel with
  | zero => intro pos h1 h2; omega
  | succ n ih =>
      intro pos hpos hfuel
      unfold splitGo
      cases hfind : strFind lower q pos with
      | none => simp [fragsStr, fragStr]
      | some idx =>
          obtain ⟨hle, htak⟩ := strFind_some hfind
          obtain ⟨hbound, _⟩ := takesAt_bounds hq htak
          have hq1 : 1 ≤ q.length := List.length_pos.mpr hq
          have hrec := ih (idx + q.length) (by omega) (by omega)
          by_cases hlt : pos < idx
          · simp only [hlt, if_pos, fragsStr, List.map_append, List.flatten_append,
              List.map_cons, List.flatten_cons, fragStr] at *
            simp only [List.map_nil, List.flatten_nil, List.append_nil]
            rw [hrec]
            rw [slice_drop_concat original (by omega : idx ≤ idx + q.length)]
            exact slice_drop_concat original (by omega : pos ≤ idx)
          · have hpe : pos = idx := by omega
            subst hpe
            simp only [lt_irrefl, if_neg, not_false_iff, List.nil_append, fragsStr,
              List.map_cons, List.flatten_cons, fragStr] at *
            rw [hrec]
            exact slice_drop_concat original (by omega : pos ≤ pos + q.length)

theorem splitMatches_concat (s q : Str) (hq : q ≠ []) :
    fragsStr (splitMatches s q) = s := by
  unfold splitMatches
  rw [splitGo_concat s (normalizeText s) q hq _ 0 (by omega) (by omega)]
  rfl

/-! §9 Text content preservation. -/

theorem textContentL_append : ∀ a b : DomList,
    textContentL (a.append b) = textContentL a ++ textContentL b
  | .nil, b => by simp [DomList.append, textContentL]
  | .cons d ds, b => by
      simp [DomList.append, textContentL, textContentL_append ds b]

theorem textContentL_fragsToDoms : ∀ fs : List Frag,
    textContentL (fragsToDoms fs) = fragsStr fs
  | [] => by simp [fragsToDoms, textContentL, fragsStr]
  | f :: fs => by
      cases f with
      | plain s =>
          simp [fragsToDoms, textContentL, fragsStr, fragDom, fragStr, textContent,
            textContentL_fragsToDoms fs]
      | marked s =>
          simp [fragsToDoms, textContentL, fragsStr, fragDom, fragStr, textContent,
            textContentL_fragsToDoms fs]

mutual
theorem textContent_hlDom (q : Str) (hq : q ≠ []) :
    ∀ d : Dom, textContent (hlDom q d) = textContent d
  | .text s => by simp [hlDom]
  | .elem t c kids => by
      simp [hlDom, textContent, textContentL_hlKids q hq kids]
theorem textContentL_hlKids (q : Str) (hq : q ≠ []) :
    ∀ l : DomList, textContentL (hlKids q l) = textContentL l
  | .nil => by simp [hlKids]
  | .cons d ds => by
      rw [hlKids, textContentL_append, textContentL_hlChild q hq d,
        textContentL_hlKids q hq ds, textContentL]
theorem textContentL_hlChild (q : Str) (hq : q ≠ []) :
    ∀ d : Dom, textContentL (hlChild q d) = textContent d
  | .text s => by
      by_cases hocc : strOccurs (normalizeText s) q = true
      · rw [hlChild, if_pos hocc, textContentL_fragsToDoms, splitMatches_concat s q hq,
          textContent]
      · rw [hlChild, if_neg hocc]
        simp [textContentL, textContent]
  | .elem t c kids => by
      simp [hlChild, textContentL, textContent, textContentL_hlKids q hq kids]
end

theorem textContentL_mtCons (s : Str) (l : DomList) :
    textContentL (mtCons s l) = s ++ textContentL l := by
  unfold mtCons
  cases l with
  | nil =>
      by_cases hs : s = []
      · simp [hs, textContentL]
      · simp [hs, textContentL]
  | cons d ds =>
      cases d with
      | text s2 =>
          by_cases he : s ++ s2 = []
          · have h1 : s = [] := by
              cases List.append_eq_nil.mp he; assumption
            have h2 : s2 = [] := by
              cases List.append_eq_nil.mp he
              assumption
            simp [he, h1, h2, textContentL, textContent]
          · simp [he, textContentL, textContent]
      | elem t c kids =>
          by_cases hs : s = []
          · simp [hs, textContentL]
          · simp [hs, textContentL, textContent]

theorem textContentL_normalizeKids : ∀ l : DomList,
    textContentL (normalizeKids l) = textContentL l
  | .nil => by simp [normalizeKids]
  | .cons (.text s) ds => by
      rw [normalizeKids, textContentL_mtCons, textContentL_normalizeKids ds, textContentL,
        textContent]
  | .cons (.elem t c kids) ds => by
      rw [normalizeKids, textContentL, textContentL, textContent, textContent,
        textContentL_normalizeKids kids, textContentL_normalizeKids ds]

theorem textContent_normalizeDom (d : Dom) : textContent (normalizeDom d) = textContent d := by
  cases d with
  | text s => rfl
  | elem t c kids => simp [normalizeDom, textContent, textContentL_normalizeKids kids]

mutual
theorem textContent_clearHighlights : ∀ d : Dom,
    textContent (clearHighlights d) = textContent d
  | .text s => by simp [clearHighlights]
  | .elem t c kids => by
      rw [clearHighlights]
      by_cases h : anyHLMark kids = true
      · rw [if_pos h, textContent_normalizeDom]
        simp [textContent, textContentL_clearKids kids]
      · rw [if_neg h]
        simp [textContent, textContentL_clearKids kids]
theorem textContentL_clearKids : ∀ l : DomList,
    textContentL (clearKids l) = textContentL l
  | .nil => by simp [clearKids]
  | .cons d ds => by
      rw [clearKids]
      by_cases h : isHLMark d = true
      · simp only [h, if_pos]
        rw [textContentL, textContentL, textContent, textContentL_clearKids ds]
      · simp only [h, if_neg, Bool.not_eq_true]
        rw [textContentL, textContentL, textContentL_clearKids ds,
          textContent_clearHighlights d]
end

theorem textContent_highlight {d d' : Dom} {query : Str}
    (h : highlightMatchesInElement d query = some d') : textContent d' = textContent d := by
  unfold highlightMatchesInElement at h
  by_cases h1 : query = []
  · simp [h1] at h
    rw [← h]
  · rw [if_neg h1] at h
    by_cases h2 : normalizeText query = []
    · simp [h2] at h
    · rw [if_neg h2] at h
      simp only [Option.some.injEq] at h
      rw [← h]
      exact textContent_hlDom (normalizeText query) h2 d

theorem textContent_runFaqOps (d : Dom) (ops : List FaqOp) :
    textContent (runFaqOps d ops) = textContent d := by
  induction ops generalizing d with
  | nil => rfl
  | cons op ops ih =>
      rw [runFaqOps, List.foldl_cons]
      rw [show List.foldl runFaqOp (runFaqOp d op) ops = runFaqOps (runFaqOp d op) ops from rfl]
      rw [ih]
      cases op with
      | applyQ q =>
          simp only [runFaqOp]
          cases h : highlightMatchesInElement d q with
          | none => rfl
          | some d2 =>
              rw [Option.getD_some]
              exact textContent_highlight h
      | clearOp => exact textContent_clearHighlights d

/-! §10 Round-trip machinery. -/

theorem anyHLMark_append : ∀ a b : DomList,
    anyHLMark (a.append b) = (anyHLMark a || anyHLMark b)
  | .nil, b => by simp [DomList.append, anyHLMark]
  | .cons d ds, b => by
      simp [DomList.append, anyHLMark, anyHLMark_append ds b, Bool.or_assoc]

theorem anyHLMark_of_hlFree : ∀ l : DomList, hlFreeKids l = true → anyHLMark l = false
  | .nil, _ => rfl
  | .cons (.text s) ds, h => by
      rw [hlFreeKids] at h
      simp [anyHLMark, isHLMark, anyHLMark_of_hlFree ds h]
  | .cons (.elem t c kids) ds, h => by
      rw [hlFreeKids] at h
      simp only [Bool.and_eq_true, Bool.not_eq_true'] at h
      simp [anyHLMark, isHLMark, h.1.1, anyHLMark_of_hlFree ds h.2]

mutual
theorem clearHighlights_hlFree : ∀ d : Dom, hlFreeDom d = true → clearHighlights d = d
  | .text s, _ => rfl
  | .elem t c kids, h => by
      rw [hlFreeDom] at h
      rw [clearHighlights, if_neg (by simp [anyHLMark_of_hlFree kids h]),
        clearKids_hlFree kids h]
theorem clearKids_hlFree : ∀ l : DomList, hlFreeKids l = true → clearKids l = l
  | .nil, _ => rfl
  | .cons (.text s) ds, h => by
      rw [hlFreeKids] at h
      rw [clearKids, if_neg (by simp [isHLMark])]
      rw [clearHighlights, clearKids_hlFree ds h]
  | .cons (.elem t c kids) ds, h => by
      rw [hlFreeKids] at h
      simp only [Bool.and_eq_true, Bool.not_eq_true'] at h
      rw [clearKids, if_neg (by simp [isHLMark, h.1.1])]
      rw [clearHighlights_hlFree (.elem t c kids) (by rw [hlFreeDom]; exact h.1.2),
        clearKids_hlFree ds h.2]
end

theorem mtCons_nil_topNormed : ∀ l : DomList, topNormed l = true → mtCons [] l = l
  | .nil, _ => rfl
  | .cons (.text s2) r, h => by
      rw [topNormed] at h
      simp only [Bool.and_eq_true, decide_eq_true_eq] at h
      rw [mtCons]
      simp [h.1.1]
  | .cons (.elem t c kids) r, _ => by rw [mtCons]; simp

theorem mtCons_mtCons (s s' : Str) : ∀ l : DomList, topNormed l = true →
    mtCons s (mtCons s' l) = mtCons (s ++ s') l
  | .nil, _ => by
      by_cases hs' : s' = []
      · subst hs'
        simp [mtCons]
      · by_cases hs : s = []
        · subst hs
          simp [mtCons, hs']
        · have h1 : s ++ s' ≠ [] := fun hc => hs' (List.append_eq_nil.mp hc).2
          simp [mtCons, hs', hs, h1]
  | .cons (.text s2) r, h => by
      rw [topNormed] at h
      simp only [Bool.and_eq_true, decide_eq_true_eq] at h
      have hs2 : s2 ≠ [] := h.1.1
      have h1 : s' ++ s2 ≠ [] := fun hc => hs2 (List.append_eq_nil.mp hc).2
      have h2 : s ++ (s' ++ s2) ≠ [] := fun hc => h1 (List.append_eq_nil.mp hc).2
      have h3 : s ++ s' ++ s2 ≠ [] := by rw [List.append_assoc]; exact h2
      simp [mtCons, h1, h2, h3, List.append_assoc]
  | .cons (.elem t c kids) r, _ => by
      by_cases hs' : s' = []
      · subst hs'
        simp [mtCons]
      · by_cases hs : s = []
        · subst hs
          simp [mtCons, hs']
        · have h1 : s ++ s' ≠ [] := fun hc => hs' (List.append_eq_nil.mp hc).2
          simp [mtCons, hs', hs, h1]

theorem topNormed_mtCons (s : Str) : ∀ l : DomList, topNormed l = true →
    topNormed (mtCons s l) = true
  | .nil, _ => by
      by_cases hs : s = []
      · simp [mtCons, hs, topNormed]
      · simp [mtCons, hs, topNormed, headIsText]
  | .cons (.text s2) r, h => by
      rw [topNormed] at h
      simp only [Bool.and_eq_true, decide_eq_true_eq] at h
      have hs2 : s2 ≠ [] := h.1.1
      have h1 : s ++ s2 ≠ [] := fun hc => hs2 (List.append_eq_nil.mp hc).2
      simp [mtCons, h1, topNormed, h.1.2, h.2]
  | .cons (.elem t c kids) r, h => by
      rw [topNormed] at h
      by_cases hs : s = []
      · simp [mtCons, hs, topNormed, h]
      · simp [mtCons, hs, topNormed, headIsText, h]

theorem topNormed_normalizeKids : ∀ l : DomList, topNormed (normalizeKids l) = true
  | .nil => rfl
  | .cons (.text s) ds => by
      rw [normalizeKids]
      exact topNormed_mtCons s _ (topNormed_normalizeKids ds)
  | .cons (.elem t c kids) ds => by
      rw [normalizeKids, topNormed]
      exact topNormed_normalizeKids ds

theorem normalizeKids_textsOf_append (X : DomList) : ∀ ss : List Str,
    normalizeKids ((textsOf ss).append X) = mtCons ss.flatten (normalizeKids X)
  | [] => by
      rw [show textsOf [] = DomList.nil from rfl]
      rw [show DomList.nil.append X = X from rfl]
      rw [List.flatten_nil]
      exact (mtCons_nil_topNormed _ (topNormed_normalizeKids X)).symm
  | s :: ss => by
      rw [show textsOf (s :: ss) = DomList.cons (.text s) (textsOf ss) from rfl]
      rw [show (DomList.cons (.text s) (textsOf ss)).append X =
        DomList.cons (.text s) ((textsOf ss).append X) from rfl]
      rw [normalizeKids, normalizeKids_textsOf_append X ss,
        mtCons_mtCons s ss.flatten _ (topNormed_normalizeKids X), List.flatten_cons]

theorem clearKids_append : ∀ a b : DomList,
    clearKids (a.append b) = (clearKids a).append (clearKids b)
  | .nil, b => rfl
  | .cons d ds, b => by
      rw [show (DomList.cons d ds).append b = DomList.cons d (ds.append b) from rfl]
      rw [clearKids, clearKids, clearKids_append ds b]
      rfl

theorem clearKids_fragsToDoms : ∀ fs : List Frag,
    clearKids (fragsToDoms fs) = textsOf (fs.map fragStr)
  | [] => rfl
  | .plain s :: fs => by
      rw [fragsToDoms, fragDom, clearKids, if_neg (by simp [isHLMark])]
      rw [clearHighlights, clearKids_fragsToDoms fs]
      rfl
  | .marked s :: fs => by
      rw [fragsToDoms, fragDom, clearKids, if_pos (by simp [isHLMark])]
      rw [clearKids_fragsToDoms fs]
      simp [textContent, textContentL, textsOf, fragStr]

theorem anyHLMark_fragsToDoms_marked {s q : Str} (hocc : strOccurs (normalizeText s) q = true) :
    anyHLMark (fragsToDoms (splitMatches s q)) = true := by
  unfold strOccurs at hocc
  rw [Option.isSome_iff_exists] at hocc
  obtain ⟨idx, hidx⟩ := hocc
  unfold splitMatches
  rw [splitGo, hidx]
  by_cases hlt : 0 < idx
  · simp only [hlt, if_pos]
    rw [show [Frag.plain (sliceStr s 0 idx)] ++
        (Frag.marked (sliceStr s idx (idx + q.length)) ::
          splitGo s (normalizeText s) q (idx + q.length) (normalizeText s).length) =
        Frag.plain (sliceStr s 0 idx) ::
        Frag.marked (sliceStr s idx (idx + q.length)) ::
          splitGo s (normalizeText s) q (idx + q.length) (normalizeText s).length from rfl]
    simp [fragsToDoms, anyHLMark, fragDom, isHLMark]
  · simp only [hlt, if_neg, not_false_iff]
    simp [fragsToDoms, anyHLMark, fragDom, isHLMark]

theorem normalizeKids_normed : ∀ l : DomList, normedKids l = true → normalizeKids l = l
  | .nil, _ => rfl
  | .cons (.text s) ds, h => by
      rw [normedKids] at h
      simp only [Bool.and_eq_true, decide_eq_true_eq, Bool.not_eq_true'] at h
      rw [normalizeKids, normalizeKids_normed ds h.2]
      cases ds with
      | nil => rw [mtCons]; simp [h.1.1]
      | cons d r =>
          cases d with
          | text s2 => simp [headIsText] at h
          | elem t c kids => rw [mtCons]; simp [h.1.1]
  | .cons (.elem t c kids) ds, h => by
      rw [normedKids] at h
      simp only [Bool.and_eq_true] at h
      rw [normalizeKids, normalizeKids_normed kids h.1, normalizeKids_normed ds h.2]

theorem mtCons_of_normedCons {s : Str} {ds : DomList} (hs : s ≠ [])
    (hh : headIsText ds = false) : mtCons s ds = .cons (.text s) ds := by
  cases ds with
  | nil => simp [mtCons, hs]
  | cons d r =>
      cases d with
      | text s2 => simp [headIsText] at hh
      | elem t c kids => simp [mtCons, hs]

mutual
theorem roundtrip_dom (q : Str) (hq : q ≠ []) : ∀ d : Dom, normedDom d = true →
    hlFreeDom d = true → clearHighlights (hlDom q d) = d
  | .text s, _, _ => rfl
  | .elem t c kids, hn, hf => by
      rw [normedDom] at hn
      rw [hlFreeDom] at hf
      rw [hlDom, clearHighlights]
      by_cases hm : anyHLMark (hlKids q kids) = true
      · rw [if_pos hm, normalizeDom, roundtrip_kids q hq kids hn hf]
      · rw [if_neg hm, roundtrip_nomark q hq kids hn hf (Bool.not_eq_true _ ▸ hm)]
theorem roundtrip_kids (q : Str) (hq : q ≠ []) : ∀ l : DomList, normedKids l = true →
    hlFreeKids l = true → normalizeKids (clearKids (hlKids q l)) = l
  | .nil, _, _ => rfl
  | .cons (.text s) ds, hn, hf => by
      rw [normedKids] at hn
      simp only [Bool.and_eq_true, decide_eq_true_eq, Bool.not_eq_true'] at hn
      rw [hlFreeKids] at hf
      rw [hlKids, hlChild]
      by_cases hocc : strOccurs (normalizeText s) q = true
      · rw [if_pos hocc, clearKids_append, clearKids_fragsToDoms,
          normalizeKids_textsOf_append, roundtrip_kids q hq ds hn.2 hf]
        rw [show ((splitMatches s q).map fragStr).flatten = fragsStr (splitMatches s q)
          from rfl]
        rw [splitMatches_concat s q hq]
        exact mtCons_of_normedCons hn.1.1 hn.1.2
      · rw [if_neg hocc]
        rw [show (DomList.cons (Dom.text s) DomList.nil).append (hlKids q ds) =
          DomList.cons (Dom.text s) (hlKids q ds) from rfl]
        rw [clearKids, if_neg (by simp [isHLMark])]
        rw [show clearHighlights (Dom.text s) = Dom.text s from rfl]
        rw [normalizeKids, roundtrip_kids q hq ds hn.2 hf]
        exact mtCons_of_normedCons hn.1.1 hn.1.2
  | .cons (.elem t c kids) ds, hn, hf => by
      rw [normedKids] at hn
      simp only [Bool.and_eq_true] at hn
      rw [hlFreeKids] at hf
      simp only [Bool.and_eq_true, Bool.not_eq_true'] at hf
      rw [hlKids, hlChild]
      rw [show (DomList.cons (Dom.elem t c (hlKids q kids)) DomList.nil).append (hlKids q ds) =
        DomList.cons (Dom.elem t c (hlKids q kids)) (hlKids q ds) from rfl]
      rw [clearKids, if_neg (by simp [isHLMark, hf.1.1])]
      rw [show Dom.elem t c (hlKids q kids) = hlDom q (Dom.elem t c kids) from rfl]
      rw [roundtrip_dom q hq (Dom.elem t c kids) (by rw [normedDom]; exact hn.1)
        (by rw [hlFreeDom]; exact hf.1.2)]
      rw [normalizeKids, normalizeKids_normed kids hn.1, roundtrip_kids q hq ds hn.2 hf.2]
theorem roundtrip_nomark (q : Str) (hq : q ≠ []) : ∀ l : DomList, normedKids l = true →
    hlFreeKids l = true → anyHLMark (hlKids q l) = false → clearKids (hlKids q l) = l
  | .nil, _, _, _ => rfl
  | .cons (.text s) ds, hn, hf, hm => by
      rw [normedKids] at hn
      simp only [Bool.and_eq_true, decide_eq_true_eq, Bool.not_eq_true'] at hn
      rw [hlFreeKids] at hf
      rw [hlKids, hlChild] at hm ⊢
      by_cases hocc : strOccurs (normalizeText s) q = true
      · exfalso
        rw [if_pos hocc, anyHLMark_append, anyHLMark_fragsToDoms_marked hocc] at hm
        simp at hm
      · rw [if_neg hocc] at hm ⊢
        rw [show (DomList.cons (Dom.text s) DomList.nil).append (hlKids q ds) =
          DomList.cons (Dom.text s) (hlKids q ds) from rfl] at hm ⊢
        rw [anyHLMark] at hm
        simp only [isHLMark, Bool.false_or] at hm
        rw [clearKids, if_neg (by simp [isHLMark])]
        rw [show clearHighlights (Dom.text s) = Dom.text s from rfl]
        rw [roundtrip_nomark q hq ds hn.2 hf hm]
  | .cons (.elem t c kids) ds, hn, hf, hm => by
      rw [normedKids] at hn
      simp only [Bool.and_eq_true] at hn
      rw [hlFreeKids] at hf
      simp only [Bool.and_eq_true, Bool.not_eq_true'] at hf
      rw [hlKids, hlChild] at hm ⊢
      rw [show (DomList.cons (Dom.elem t c (hlKids q kids)) DomList.nil).append (hlKids q ds) =
        DomList.cons (Dom.elem t c (hlKids q kids)) (hlKids q ds) from rfl] at hm ⊢
      rw [anyHLMark] at hm
      simp only [isHLMark, hf.1.1, Bool.false_or] at hm
      rw [clearKids, if_neg (by simp [isHLMark, hf.1.1])]
      rw [show Dom.elem t c (hlKids q kids) = hlDom q (Dom.elem t c kids) from rfl]
      rw [roundtrip_dom q hq (Dom.elem t c kids) (by rw [normedDom]; exact hn.1)
        (by rw [hlFreeDom]; exact hf.1.2)]
      rw [roundtrip_nomark q hq ds hn.2 hf.2 hm]
end

/-! §11 Element-skeleton lemmas: `clearHighlights` touches nothing but
highlight markers and the text nodes around them. -/

theorem eraseKids_mtCons (s : Str) : ∀ l : DomList, eraseKids (mtCons s l) = eraseKids l
  | .nil => by
      by_cases hs : s = []
      · simp [mtCons, hs]
      · simp [mtCons, hs, eraseKids]
  | .cons (.text s2) r => by
      by_cases he : s ++ s2 = []
      · simp [mtCons, he, eraseKids]
      · simp [mtCons, he, eraseKids]
  | .cons (.elem t c kids) r => by
      by_cases hs : s = []
      · simp [mtCons, hs]
      · simp [mtCons, hs, eraseKids]

theorem eraseKids_normalizeKids : ∀ l : DomList, eraseKids (normalizeKids l) = eraseKids l
  | .nil => rfl
  | .cons (.text s) ds => by
      rw [normalizeKids, eraseKids_mtCons, eraseKids_normalizeKids ds, eraseKids]
  | .cons (.elem t c kids) ds => by
      rw [normalizeKids, eraseKids, eraseKids, eraseKids_normalizeKids kids,
        eraseKids_normalizeKids ds]

mutual
theorem eraseTexts_clearHighlights : ∀ d : Dom,
    eraseTexts (clearHighlights d) = dropHLRoot (eraseTexts d)
  | .text s => rfl
  | .elem t c kids => by
      rw [clearHighlights]
      by_cases hm : anyHLMark kids = true
      · rw [if_pos hm, normalizeDom, eraseTexts, eraseKids_normalizeKids,
          eraseKids_clearKids kids]
        rfl
      · rw [if_neg hm, eraseTexts, eraseKids_clearKids kids]
        rfl
theorem eraseKids_clearKids : ∀ l : DomList, eraseKids (clearKids l) = dropHLKids (eraseKids l)
  | .nil => rfl
  | .cons (.text s) ds => by
      rw [clearKids, if_neg (by simp [isHLMark])]
      rw [show clearHighlights (Dom.text s) = Dom.text s from rfl]
      rw [eraseKids, eraseKids, eraseKids_clearKids ds]
  | .cons (.elem t c kids) ds => by
      by_cases hd : (t == HIGHLIGHT_TAG && c == HIGHLIGHT_CLASS) = true
      · rw [clearKids, if_pos (by rw [isHLMark]; exact hd)]
        rw [eraseKids, eraseKids, dropHLKids, if_pos hd, eraseKids_clearKids ds]
      · rw [clearKids, if_neg (by rw [isHLMark]; exact fun hc => hd hc)]
        have hdom := eraseTexts_clearHighlights (Dom.elem t c kids)
        cases hcl : clearHighlights (Dom.elem t c kids) with
        | text s' =>
            exfalso
            rw [hcl, eraseTexts, eraseTexts, dropHLRoot] at hdom
            exact Dom.noConfusion hdom
        | elem t' c' kids' =>
            rw [hcl, eraseTexts, eraseTexts, dropHLRoot] at hdom
            injection hdom with h1 h2 h3
            subst h1
            subst h2
            simp only [eraseKids]
            rw [dropHLKids, if_neg (fun hc => hd hc)]
            rw [h3, eraseKids_clearKids ds]
end

/-- C1: for every container, flattened text content is invariant under
arbitrary apply/clear cycles; for a normalized, marker-free container,
clearing after a completed highlight restores the container exactly
(adjacent text fragments are merged back into single nodes); and clearing a
never-highlighted container is a no-op on text content (indeed `clearHighlights`
never changes text content). -/
theorem C1_highlight_clear_roundtrip :
    (∀ (d : Dom) (ops : List FaqOp), textContent (runFaqOps d ops) = textContent d) ∧
    (∀ (d d' : Dom) (q : Str), normedDom d = true → hlFreeDom d = true →
      highlightMatchesInElement d q = some d' → clearHighlights d' = d) ∧
    (∀ d : Dom, textContent (clearHighlights d) = textContent d) := by
  refine ⟨textContent_runFaqOps, ?_, textContent_clearHighlights⟩
  intro d d' q hn hf h
  unfold highlightMatchesInElement at h
  by_cases h1 : q = []
  · simp only [h1, if_pos, Option.some.injEq] at h
    rw [← h]
    exact clearHighlights_hlFree d hf
  · rw [if_neg h1] at h
    by_cases h2 : normalizeText q = []
    · simp [h2] at h
    · rw [if_neg h2] at h
      simp only [Option.some.injEq] at h
      rw [← h]
      exact roundtrip_dom (normalizeText q) h2 d hn hf

/-- Witness for C1 at a concrete container and query. -/
theorem C1_witness : clearHighlights exC1h = exC1 :=
  C1_highlight_clear_roundtrip.2.1 exC1 exC1h "API".data (by decide) (by decide) (by decide)

/-- C2, code evaluated at the failing input: on the text node `" api"` with
query `"API"`, the source finds the match in the trimmed lowercased string
but slices the untrimmed original, so the emitted marker wraps `" ap"` — not
the actual occurrence `"api"` (which sits at indices 1–4) — and the marked
fragment does not equal the query case-insensitively. -/
theorem C2_mismarked_fragment :
    highlightMatchesInElement exC2 "API".data =
      some (.elem "div".data []
        (toDomList
          [.elem HIGHLIGHT_TAG HIGHLIGHT_CLASS (toDomList [.text " ap".data]),
            .text "i".data])) ∧
    " ap".data.map jsLower ≠ "API".data.map jsLower ∧
    sliceStr " api".data 1 4 = "api".data :=
  ⟨by decide, by decide, by decide⟩

/-- C10 (amended): `clearHighlights` preserves flattened text content, and on
the element skeleton it removes exactly the `mark.faq-search-highlight`
elements (the contents of a removed marker are flattened into text); every
other element — marks without the class included — is kept with its tag,
class and position.  Text nodes adjacent to a removed marker are coalesced,
which is the one way surrounding nodes are touched. -/
theorem C10_clear_only_marks :
    (∀ d : Dom, textContent (clearHighlights d) = textContent d) ∧
    (∀ d : Dom, eraseTexts (clearHighlights d) = dropHLRoot (eraseTexts d)) :=
  ⟨textContent_clearHighlights, eraseTexts_clearHighlights⟩

/-- C10 counterexample to the literal claim: clearing `<div>a<mark
class="faq-search-highlight">x</mark>b</div>` yields a single coalesced text
node `axb`, so the sibling text nodes `a` and `b` are not left untouched;
the pure replace-markers-only reading differs from the actual operation. -/
theorem C10_counterexample :
    clearHighlights exC10 = .elem "div".data [] (toDomList [.text "axb".data]) ∧
    clearHighlights exC10 ≠ replMarksDom exC10 :=
  ⟨by decide, by decide⟩

/-! §12 Cost model. -/

/-- C3 counterexample to the literal claim: with an existing auth system the
reported initial-development sub-component is the transition fee 50000, not
zero. -/
theorem C3_counterexample :
    (calculateCosts st3).build.initialDevelopment = 50000 ∧ (50000 : ℚ) ≠ 0 := by
  constructor
  · simp [calculateCosts, st3]
  · norm_num

/-- C3 (amended): with `hasExistingAuth = true` the build total is exactly
the one-time transition fee plus the linear maintenance term
(`50000 + 85000 × timeline`, e.g. 305000 at timeline 3), and the
security-and-compliance and opportunity-cost sub-components report as zero —
but the initial-development sub-component mirrors the transition fee 50000
instead of reporting zero. -/
theorem C3_existing_auth_build : ∀ s : CalculatorState, s.hasExistingAuth = true →
    (calculateCosts s).build.total = 50000 + 85000 * s.timeline ∧
    (calculateCosts s).build.securityAndCompliance = 0 ∧
    (calculateCosts s).build.opportunityCost = 0 ∧
    (calculateCosts s).build.initialDevelopment = 50000 ∧
    (calculateCosts s).build.ongoingMaintenance = 85000 * s.timeline ∧
    (calculateCosts s).build.oneTimeTransition = 50000 ∧
    (calculateCosts st3).build.total = 305000 := by
  intro s h
  refine ⟨by simp [calculateCosts, h], by simp [calculateCosts, h], by simp [calculateCosts, h],
    by simp [calculateCosts, h], by simp [calculateCosts, h], by simp [calculateCosts, h], ?_⟩
  norm_num [calculateCosts, st3]

/-- Witness for C3 at the spec's scenario state. -/
theorem C3_witness :
    (calculateCosts st3).build.total = 50000 + 85000 * st3.timeline ∧
    (calculateCosts st3).build.securityAndCompliance = 0 ∧
    (calculateCosts st3).build.opportunityCost = 0 ∧
    (calculateCosts st3).build.initialDevelopment = 50000 ∧
    (calculateCosts st3).build.ongoingMaintenance = 85000 * st3.timeline ∧
    (calculateCosts st3).build.oneTimeTransition = 50000 ∧
    (calculateCosts st3).build.total = 305000 :=
  C3_existing_auth_build st3 rfl

/-- C4 counterexample to the literal claim: at timeline 1/3 with an existing
auth system the reported ongoing-maintenance sub-result is 85000/3, which is
not a whole number of units — the `85000 × timeline` term is never rounded. -/
theorem C4_counterexample :
    (calculateCosts st4).build.ongoingMaintenance = 85000 * (1 / 3 : ℚ) ∧
    ¬IsWhole (85000 * (1 / 3 : ℚ)) := by
  constructor
  · simp [calculateCosts, st4]
  · rw [IsWhole]
    norm_num

/-- C4 (amended): every sub-result of the cost breakdown is a whole number
of units provided the timeline is whole (the only non-rounded non-constant
sub-result is the existing-auth maintenance term `85000 × timeline`); each
result total equals the exact sum of its constituent sub-components with no
separate rounding of totals (for saas, the migration cost is already
contained in integration work); and the no-auth scenario initial development
at engineers=3, salary=150000 is round(3 × 150000 × 1.5 × 0.5) = 337500. -/
theorem C4_rounded_components_sums : ∀ s : CalculatorState,
    (IsWhole s.timeline →
      IsWhole (calculateCosts s).build.initialDevelopment ∧
      IsWhole (calculateCosts s).build.ongoingMaintenance ∧
      IsWhole (calculateCosts s).build.securityAndCompliance ∧
      IsWhole (calculateCosts s).build.opportunityCost ∧
      IsWhole (calculateCosts s).build.oneTimeTransition ∧
      IsWhole (calculateCosts s).saas.userLicensing ∧
      IsWhole (calculateCosts s).saas.integrationWork ∧
      IsWhole (calculateCosts s).saas.ongoingSupport ∧
      IsWhole (calculateCosts s).saas.migrationCost ∧
      IsWhole (calculateCosts s).fusionauth.licensing ∧
      IsWhole (calculateCosts s).fusionauth.integration ∧
      IsWhole (calculateCosts s).fusionauth.maintenance) ∧
    (calculateCosts s).build.total =
      (calculateCosts s).build.initialDevelopment +
        (calculateCosts s).build.ongoingMaintenance +
        (calculateCosts s).build.securityAndCompliance +
        (calculateCosts s).build.opportunityCost ∧
    (calculateCosts s).saas.total =
      (calculateCosts s).saas.userLicensing + (calculateCosts s).saas.integrationWork +
        (calculateCosts s).saas.ongoingSupport ∧
    (calculateCosts s).fusionauth.total =
      (calculateCosts s).fusionauth.licensing + (calculateCosts s).fusionauth.integration +
        (calculateCosts s).fusionauth.maintenance ∧
    (calculateCosts st4w).build.initialDevelopment = 337500 := by
  intro s
  have hwhole : ∀ z : ℤ, IsWhole (z : ℚ) := fun z => Rat.den_intCast z
  have hadd : ∀ a b : ℚ, IsWhole a → IsWhole b → IsWhole (a + b) := by
    intro a b ha hb
    rw [IsWhole] at ha hb ⊢
    rw [← Rat.coe_int_num_of_den_eq_one ha, ← Rat.coe_int_num_of_den_eq_one hb,
      show ((a.num : ℚ) + (b.num : ℚ)) = ((a.num + b.num : ℤ) : ℚ) by push_cast; ring]
    exact hwhole _
  have hmul : IsWhole s.timeline → IsWhole (85000 * s.timeline) := by
    intro h
    rw [IsWhole] at h
    rw [← Rat.coe_int_num_of_den_eq_one h,
      show (85000 : ℚ) * (s.timeline.num : ℚ) = ((85000 * s.timeline.num : ℤ) : ℚ)
        by push_cast; ring]
    exact hwhole _
  refine ⟨?_, ?_, ?_, ?_, ?_⟩
  · intro ht
    cases hc : s.hasExistingAuth <;>
      simp only [calculateCosts, hc, Bool.false_eq_true, if_neg, if_pos, ite_true, ite_false,
        not_false_iff] <;>
      refine ⟨?_, ?_, ?_, ?_, ?_, ?_, ?_, ?_, ?_, ?_, ?_, ?_⟩ <;>
      first
        | exact hwhole _
        | exact hmul ht
        | exact rfl
        | exact hadd _ _ (hwhole _) (by rfl)
  · cases hc : s.hasExistingAuth <;> simp [calculateCosts, hc]
  · cases hc : s.hasExistingAuth <;> simp [calculateCosts, hc]
  · cases hc : s.hasExistingAuth <;> simp [calculateCosts, hc]
  · norm_num [calculateCosts, st4w, jsRound]

/-- Witness for C4 at the spec's no-auth scenario state. -/
theorem C4_witness :
    (IsWhole (calculateCosts st4w).build.initialDevelopment ∧
      IsWhole (calculateCosts st4w).build.ongoingMaintenance ∧
      IsWhole (calculateCosts st4w).build.securityAndCompliance ∧
      IsWhole (calculateCosts st4w).build.opportunityCost ∧
      IsWhole (calculateCosts st4w).build.oneTimeTransition ∧
      IsWhole (calculateCosts st4w).saas.userLicensing ∧
      IsWhole (calculateCosts st4w).saas.integrationWork ∧
      IsWhole (calculateCosts st4w).saas.ongoingSupport ∧
      IsWhole (calculateCosts st4w).saas.migrationCost ∧
      IsWhole (calculateCosts st4w).fusionauth.licensing ∧
      IsWhole (calculateCosts st4w).fusionauth.integration ∧
      IsWhole (calculateCosts st4w).fusionauth.maintenance) ∧
    (calculateCosts st4w).build.total =
      (calculateCosts st4w).build.initialDevelopment +
        (calculateCosts st4w).build.ongoingMaintenance +
        (calculateCosts st4w).build.securityAndCompliance +
        (calculateCosts st4w).build.opportunityCost :=
  ⟨((C4_rounded_components_sums st4w).1 (by rfl)),
    (C4_rounded_components_sums st4w).2.1⟩

/-! §13 Input reading. -/

/-- C9 counterexample to the literal claim: a present engineers input with
the finite value −5 — outside any admissible engineer-count range — is passed
through unchanged instead of falling back to the default 3; the code checks
only finiteness, never a range. -/
theorem C9_counterexample :
    (readState inpNeg).engineers = -5 ∧ (readState inpNeg).engineers ≠ 3 := by
  constructor
  · rfl
  · intro h
    rw [show (readState inpNeg).engineers = -5 from rfl] at h
    norm_num at h

/-- C9 (amended): reading the calculator state falls back to the fixed
defaults (3 engineers, 150000 salary, 10000 users, 3-year timeline, no
existing auth) exactly when an input element is missing or its value is
non-finite; every finite value — in range or not — is passed through. -/
theorem C9_fallback_defaults : ∀ inp : RawInputs,
    ((inp.engineers = none ∨ inp.engineers = some none) → (readState inp).engineers = 3) ∧
    (∀ x : ℚ, inp.engineers = some (some x) → (readState inp).engineers = x) ∧
    ((inp.salary = none ∨ inp.salary = some none) → (readState inp).salary = 150000) ∧
    (∀ x : ℚ, inp.salary = some (some x) → (readState inp).salary = x) ∧
    ((inp.users = none ∨ inp.users = some none) → (readState inp).users = 10000) ∧
    (∀ x : ℚ, inp.users = some (some x) → (readState inp).users = x) ∧
    ((inp.timeline = none ∨ inp.timeline = some none) → (readState inp).timeline = 3) ∧
    (∀ x : ℚ, inp.timeline = some (some x) → (readState inp).timeline = x) ∧
    (inp.auth = none → (readState inp).hasExistingAuth = false) ∧
    (∀ b : Bool, inp.auth = some b → (readState inp).hasExistingAuth = b) := by
  intro inp
  refine ⟨?_, ?_, ?_, ?_, ?_, ?_, ?_, ?_, ?_, ?_⟩
  · rintro (h | h) <;> simp [readState, queryNumberInput, h]
  · intro x h; simp [readState, queryNumberInput, h]
  · rintro (h | h) <;> simp [readState, queryNumberInput, h]
  · intro x h; simp [readState, queryNumberInput, h]
  · rintro (h | h) <;> simp [readState, queryNumberInput, h]
  · intro x h; simp [readState, queryNumberInput, h]
  · rintro (h | h) <;> simp [readState, queryNumberInput, h]
  · intro x h; simp [readState, queryNumberInput, h]
  · intro h; simp [readState, queryBooleanInput, h]
  · intro b h; simp [readState, queryBooleanInput, h]

/-- Witness for C9: missing engineers and timeline inputs, a non-finite
salary, a finite users value and a checked auth box. -/
theorem C9_witness :
    (readState inpW).engineers = 3 ∧ (readState inpW).salary = 150000 ∧
    (readState inpW).users = 99 ∧ (readState inpW).timeline = 3 ∧
    (readState inpW).hasExistingAuth = true :=
  ⟨(C9_fallback_defaults inpW).1 (Or.inl rfl),
    (C9_fallback_defaults inpW).2.2.1 (Or.inr rfl),
    (C9_fallback_defaults inpW).2.2.2.2.2.1 99 rfl,
    (C9_fallback_defaults inpW).2.2.2.2.2.2.1 (Or.inl rfl),
    (C9_fallback_defaults inpW).2.2.2.2.2.2.2.2.2 true rfl⟩

/-! §14 Controller: per-item transform facts. -/

@[simp] theorem clearItem_wrapper (it : Item) : (clearItem it).wrapper = it.wrapper := rfl

@[simp] theorem clearItem_visOpen (it : Item) : (clearItem it).visOpen = it.visOpen := rfl

@[simp] theorem clearItem_attr (it : Item) : (clearItem it).attr = it.attr := rfl

@[simp] theorem clearItem_aria (it : Item) : (clearItem it).aria = it.aria := rfl

@[simp] theorem clearItem_openedBy (it : Item) : (clearItem it).openedBy = it.openedBy := rfl

@[simp] theorem clearItem_answer_isSome (it : Item) :
    (clearItem it).answer.isSome = it.answer.isSome := by
  rw [clearItem]
  cases it.answer <;> rfl

@[simp] theorem hlItem_wrapper (q : Str) (it : Item) : (hlItem q it).wrapper = it.wrapper := rfl

@[simp] theorem hlItem_visOpen (q : Str) (it : Item) : (hlItem q it).visOpen = it.visOpen := rfl

@[simp] theorem hlItem_attr (q : Str) (it : Item) : (hlItem q it).attr = it.attr := rfl

@[simp] theorem hlItem_aria (q : Str) (it : Item) : (hlItem q it).aria = it.aria := rfl

@[simp] theorem hlItem_openedBy (q : Str) (it : Item) :
    (hlItem q it).openedBy = it.openedBy := rfl

@[simp] theorem hlItem_answer_isSome (q : Str) (it : Item) :
    (hlItem q it).answer.isSome = it.answer.isSome := by
  rw [hlItem]
  cases it.answer <;> rfl

@[simp] theorem isFaqItemOpen_clearItem (it : Item) :
    isFaqItemOpen (clearItem it) = isFaqItemOpen it := by
  rw [isFaqItemOpen, isFaqItemOpen, clearItem_answer_isSome, clearItem_visOpen, clearItem_aria]

@[simp] theorem isFaqItemOpen_hlItem (q : Str) (it : Item) :
    isFaqItemOpen (hlItem q it) = isFaqItemOpen it := by
  rw [isFaqItemOpen, isFaqItemOpen, hlItem_answer_isSome, hlItem_visOpen, hlItem_aria]

theorem textContent_hlRegion (d : Dom) (q : Str) : textContent (hlRegion d q) = textContent d := by
  rw [hlRegion]
  cases h : highlightMatchesInElement d q with
  | none => rfl
  | some d2 => rw [Option.getD_some]; exact textContent_highlight h

theorem isMatch_map_clear (o : Option Dom) (q : Str) :
    isMatch (o.map clearHighlights) q = isMatch o q := by
  cases o with
  | none => rfl
  | some d => simp [isMatch, textContent_clearHighlights]

theorem isMatch_map_hl (o : Option Dom) (q q' : Str) :
    isMatch (o.map (fun d => hlRegion d q')) q = isMatch o q := by
  cases o with
  | none => rfl
  | some d => simp [isMatch, textContent_hlRegion]

@[simp] theorem itemMatchesQuery_clearItem (it : Item) (q : Str) :
    itemMatchesQuery (clearItem it) q = itemMatchesQuery it q := by
  rw [itemMatchesQuery, itemMatchesQuery, clearItem, ]
  simp only [isMatch_map_clear]

@[simp] theorem itemMatchesQuery_hlItem (it : Item) (q q' : Str) :
    itemMatchesQuery (hlItem q' it) q = itemMatchesQuery it q := by
  rw [itemMatchesQuery, itemMatchesQuery, hlItem]
  simp only [isMatch_map_hl]

theorem get?_map (f : Item → Item) (l : List Item) (i : Nat) :
    (l.map f).get? i = (l.get? i).map f := by
  simp [List.get?_eq_getElem?, List.getElem?_map]

/-! firstMatchIdx: it really is the first match in document order. -/

theorem firstMatchIdx_map_clear (q : Str) : ∀ (l : List Item) (n : Nat),
    firstMatchIdx q n (l.map clearItem) = firstMatchIdx q n l
  | [], _ => rfl
  | it :: its, n => by
      rw [List.map_cons, firstMatchIdx, firstMatchIdx, itemMatchesQuery_clearItem]
      by_cases h : itemMatchesQuery it q = true
      · rw [if_pos h, if_pos h]
      · rw [if_neg h, if_neg h, firstMatchIdx_map_clear q its (n + 1)]

theorem firstMatchIdx_some {q : Str} : ∀ (l : List Item) (n f : Nat),
    firstMatchIdx q n l = some f →
    ∃ k, f = n + k ∧ (∃ it, l.get? k = some it ∧ itemMatchesQuery it q = true) ∧
      ∀ j it, j < k → l.get? j = some it → itemMatchesQuery it q = false
  | [], n, f => by intro h; exact absurd h (by rw [firstMatchIdx]; simp)
  | it :: its, n, f => by
      intro h
      rw [firstMatchIdx] at h
      by_cases hm : itemMatchesQuery it q = true
      · rw [if_pos hm] at h
        simp only [Option.some.injEq] at h
        subst h
        refine ⟨0, by omega, ⟨it, rfl, hm⟩, ?_⟩
        intro j it2 hj hget
        omega
      · rw [if_neg hm] at h
        obtain ⟨k, hk, hex, hmin⟩ := firstMatchIdx_some its (n + 1) f h
        refine ⟨k + 1, by omega, ?_, ?_⟩
        · obtain ⟨it2, h2, h3⟩ := hex
          exact ⟨it2, by rw [List.get?_cons_succ]; exact h2, h3⟩
        · intro j it2 hj hget
          cases j with
          | zero =>
              rw [List.get?_cons_zero, Option.some.injEq] at hget
              rw [← hget]
              exact Bool.not_eq_true _ ▸ hm
          | succ j' =>
              rw [List.get?_cons_succ] at hget
              exact hmin j' it2 (by omega) hget

theorem firstMatchIdx_none {q : Str} : ∀ (l : List Item) (n : Nat),
    firstMatchIdx q n l = none →
    ∀ j it, l.get? j = some it → itemMatchesQuery it q = false
  | [], _, _ => by intro j it h; rw [List.get?_nil] at h; exact absurd h (by simp)
  | it :: its, n, h => by
      rw [firstMatchIdx] at h
      by_cases hm : itemMatchesQuery it q = true
      · rw [if_pos hm] at h
        exact absurd h (by simp)
      · rw [if_neg hm] at h
        intro j it2 hget
        cases j with
        | zero =>
            rw [List.get?_cons_zero, Option.some.injEq] at hget
            rw [← hget]
            exact Bool.not_eq_true _ ▸ hm
        | succ j' =>
            rw [List.get?_cons_succ] at hget
            exact firstMatchIdx_none its (n + 1) h j' it2 hget

/-! closeGo / closeSearchOpened characterization. -/

theorem closeGo_get? (opened : List Nat) (keep : Item → Bool) : ∀ (its : List Item) (n k : Nat),
    (closeGo opened keep n its).get? k =
      (its.get? k).map (fun it =>
        if opened.contains (n + k) && !(keep it) then closeItem it else it)
  | [], n, k => by rw [closeGo]; cases k <;> rfl
  | it :: its, n, k => by
      rw [closeGo]
      cases k with
      | zero =>
          rw [List.get?_cons_zero, List.get?_cons_zero, Option.map_some', Nat.add_zero]
      | succ k' =>
          rw [List.get?_cons_succ, List.get?_cons_succ, closeGo_get? opened keep its (n + 1) k']
          have : n + 1 + k' = n + (k' + 1) := by omega
          rw [this]

theorem closeSearchOpened_items_get? (s : CtrlState) (keep : Item → Bool) (i : Nat) :
    (closeSearchOpened s keep).items.get? i =
      (s.items.get? i).map (fun it =>
        if s.searchOpened.contains i && !(keep it) then closeItem it else it) := by
  rw [closeSearchOpened]
  exact (closeGo_get? s.searchOpened keep s.items 0 i).trans (by rw [Nat.zero_add])

theorem closeSearchOpened_items_get?_notin {s : CtrlState} {keep : Item → Bool} {i : Nat}
    (h : i ∉ s.searchOpened) :
    (closeSearchOpened s keep).items.get? i = s.items.get? i := by
  rw [closeSearchOpened_items_get?]
  have hc : s.searchOpened.contains i = false := by
    cases hcc : s.searchOpened.contains i
    · rfl
    · exact absurd (List.elem_iff.mp hcc) h
  rw [hc]
  cases s.items.get? i <;> rfl

theorem closeSearchOpened_set_mem {s : CtrlState} {keep : Item → Bool} {i : Nat}
    (h : i ∈ (closeSearchOpened s keep).searchOpened) :
    i ∈ s.searchOpened ∧ ∀ it, s.items.get? i = some it → keep it = true := by
  have h2 : i ∈ s.searchOpened.filter (fun j =>
      match s.items.get? j with
      | some it => keep it
      | none => true) := h
  refine ⟨List.mem_of_mem_filter h2, ?_⟩
  intro it hit
  have h3 := @List.of_mem_filter _ (fun j =>
      match s.items.get? j with
      | some it => keep it
      | none => true) i s.searchOpened h2
  simp only [hit] at h3
  exact h3

theorem closeSearchOpened_scrolls (s : CtrlState) (keep : Item → Bool) :
    (closeSearchOpened s keep).scrolls = s.scrolls := rfl

/-! openFaqItem characterization. -/

theorem openFaqItem_items_ne {s : CtrlState} {f i : Nat} (h : i ≠ f) :
    (openFaqItem s f).items.get? i = s.items.get? i := by
  rw [openFaqItem]
  cases hf : s.items.get? f with
  | none => rfl
  | some it =>
      cases hw : it.wrapper
      · simp [hw]
      · cases ha : it.attr
        · simp [hw, ha, List.get?_eq_getElem?, List.getElem?_set_ne (fun hc => h hc.symm)]
        · simp [hw, ha]

theorem openFaqItem_scrolls (s : CtrlState) (f : Nat) :
    (openFaqItem s f).scrolls = s.scrolls := by
  rw [openFaqItem]
  cases hf : s.items.get? f with
  | none => rfl
  | some it =>
      cases hw : it.wrapper
      · simp [hw]
      · cases ha : it.attr <;> simp [hw, ha]

theorem openFaqItem_spec_open {s : CtrlState} {f : Nat} {it : Item}
    (hf : s.items.get? f = some it) (hw : it.wrapper = true) (ha : it.attr = false) :
    (openFaqItem s f).items.get? f = some { clickWrapper .search it with attr := true } ∧
    (openFaqItem s f).searchOpened = f :: s.searchOpened := by
  have hlen : f < s.items.length := by
    rw [List.get?_eq_getElem?] at hf
    exact (List.getElem?_eq_some_iff.mp hf).1
  simp only [openFaqItem, hf]
  rw [hw, ha]
  constructor
  · simp [List.get?_eq_getElem?, List.getElem?_set_self, hlen]
  · simp

theorem openFaqItem_spec_skip {s : CtrlState} {f : Nat} {it : Item}
    (hf : s.items.get? f = some it) (h : it.wrapper = false ∨ it.attr = true) :
    openFaqItem s f = s := by
  simp only [openFaqItem, hf]
  cases h with
  | inl h1 => rw [h1]; rfl
  | inr h2 =>
      cases hw : it.wrapper
      · rfl
      · rw [h2]; rfl

theorem openFaqItem_none {s : CtrlState} {f : Nat} (hf : s.items.get? f = none) :
    openFaqItem s f = s := by
  rw [openFaqItem, hf]

theorem openFaqItem_set_mem {s : CtrlState} {f i : Nat}
    (h : i ∈ (openFaqItem s f).searchOpened) : i = f ∨ i ∈ s.searchOpened := by
  cases hf : s.items.get? f with
  | none => simp only [openFaqItem, hf] at h; exact Or.inr h
  | some it =>
      simp only [openFaqItem, hf] at h
      cases hw : it.wrapper
      · rw [hw] at h; exact Or.inr h
      · cases ha : it.attr
        · rw [hw, ha] at h
          simp only [Bool.not_true, Bool.false_eq_true, ite_false, ite_true,
            if_neg, not_false_iff] at h
          rw [List.mem_cons] at h
          exact h
        · rw [hw, ha] at h; exact Or.inr h

/-! §15 findFirstMatchAndAct. -/

@[simp] theorem clickWrapper_title (a : Actor) (it : Item) :
    (clickWrapper a it).title = it.title := rfl

@[simp] theorem clickWrapper_answer (a : Actor) (it : Item) :
    (clickWrapper a it).answer = it.answer := rfl

@[simp] theorem clickWrapper_wrapper (a : Actor) (it : Item) :
    (clickWrapper a it).wrapper = it.wrapper := rfl

@[simp] theorem clickWrapper_aria (a : Actor) (it : Item) :
    (clickWrapper a it).aria = it.aria := rfl

@[simp] theorem clickWrapper_visOpen (a : Actor) (it : Item) :
    (clickWrapper a it).visOpen = !it.visOpen := rfl

@[simp] theorem clickWrapper_attr (a : Actor) (it : Item) :
    (clickWrapper a it).attr = true := rfl

@[simp] theorem clickWrapper_openedBy (a : Actor) (it : Item) :
    (clickWrapper a it).openedBy = if it.visOpen then none else some a := rfl

theorem ffma_unfold (s : CtrlState) (query : Str) (hq : ¬normalizeText query = []) :
    findFirstMatchAndAct s query =
      match firstMatchIdx (normalizeText query) 0 s.items with
      | none =>
          { s with
            items := (s.items.map clearItem).map (fun it =>
              if itemMatchesQuery it (normalizeText query) then hlItem (normalizeText query) it
              else it) }
      | some f =>
          openFaqItem
            { s with
              items := (s.items.map clearItem).map (fun it =>
                if itemMatchesQuery it (normalizeText query) then hlItem (normalizeText query) it
                else it)
              scrolls := f :: s.scrolls } f := by
  simp only [findFirstMatchAndAct]
  rw [if_neg hq, firstMatchIdx_map_clear]

theorem ffma_items2_get? (s : CtrlState) (q : Str) (i : Nat) :
    ((s.items.map clearItem).map (fun it =>
        if itemMatchesQuery it q then hlItem q it else it)).get? i =
      (s.items.get? i).map (fun it =>
        if itemMatchesQuery it q then hlItem q (clearItem it) else clearItem it) := by
  rw [get?_map, get?_map, Option.map_map]
  cases hi : s.items.get? i with
  | none => rfl
  | some it =>
      simp only [Option.map_some', Function.comp]
      rw [itemMatchesQuery_clearItem]

theorem ffma_unfold_none (s : CtrlState) (query : Str) (hq : ¬normalizeText query = [])
    (hmi : firstMatchIdx (normalizeText query) 0 s.items = none) :
    findFirstMatchAndAct s query =
      { s with items := (s.items.map clearItem).map (fun it =>
          if itemMatchesQuery it (normalizeText query) then hlItem (normalizeText query) it
          else it) } := by
  rw [ffma_unfold s query hq, hmi]

theorem ffma_unfold_some (s : CtrlState) (query : Str) (f : Nat)
    (hq : ¬normalizeText query = [])
    (hmi : firstMatchIdx (normalizeText query) 0 s.items = some f) :
    findFirstMatchAndAct s query =
      openFaqItem
        { s with
          items := (s.items.map clearItem).map (fun it =>
            if itemMatchesQuery it (normalizeText query) then hlItem (normalizeText query) it
            else it)
          scrolls := f :: s.scrolls } f := by
  rw [ffma_unfold s query hq, hmi]

/-- C5 (amended): for every controller state and query normalizing to a
non-empty string, `findFirstMatchAndAct` scrolls to exactly the first item,
in document order, whose title or answer matches (and records and opens
nothing when no item matches); every item other than that first match keeps
its open state, marker attribute and ghost opening provenance (in particular
no other matching item is opened); the first matching item is toggled via
the simulated click and recorded in the search-opened set if and only if it
has a clickable header and does not already carry the
`data-opened-by-search` marker attribute — the guard is the marker, not
openness, so a closed item carrying the marker stays closed — and matches
are highlighted in the title and answer regions of every matching item (all
regions having first been cleared). -/
theorem C5_first_match_only (s : CtrlState) (query : Str) (hq : ¬normalizeText query = []) :
    (firstMatchIdx (normalizeText query) 0 s.items = none →
      (findFirstMatchAndAct s query).scrolls = s.scrolls ∧
      (findFirstMatchAndAct s query).searchOpened = s.searchOpened) ∧
    (∀ f, firstMatchIdx (normalizeText query) 0 s.items = some f →
      (findFirstMatchAndAct s query).scrolls = f :: s.scrolls ∧
      (∃ it, s.items.get? f = some it ∧ itemMatchesQuery it (normalizeText query) = true) ∧
      (∀ j it, j < f → s.items.get? j = some it →
        itemMatchesQuery it (normalizeText query) = false)) ∧
    (∀ i it, s.items.get? i = some it →
      firstMatchIdx (normalizeText query) 0 s.items ≠ some i →
      ∃ it', (findFirstMatchAndAct s query).items.get? i = some it' ∧
        it'.visOpen = it.visOpen ∧ it'.attr = it.attr ∧ it'.openedBy = it.openedBy) ∧
    (∀ f it, firstMatchIdx (normalizeText query) 0 s.items = some f →
      s.items.get? f = some it →
      (it.wrapper = true → it.attr = false →
        ∃ it', (findFirstMatchAndAct s query).items.get? f = some it' ∧
          it'.visOpen = !it.visOpen ∧ it'.attr = true ∧
          it'.openedBy = (if it.visOpen then none else some Actor.search) ∧
          (findFirstMatchAndAct s query).searchOpened = f :: s.searchOpened) ∧
      ((it.wrapper = false ∨ it.attr = true) →
        ∃ it', (findFirstMatchAndAct s query).items.get? f = some it' ∧
          it'.visOpen = it.visOpen ∧ it'.attr = it.attr ∧
          (findFirstMatchAndAct s query).searchOpened = s.searchOpened)) ∧
    (∀ i it, s.items.get? i = some it →
      ∃ it', (findFirstMatchAndAct s query).items.get? i = some it' ∧
        it'.title = (if itemMatchesQuery it (normalizeText query)
          then (clearItem it).title.map (fun d => hlRegion d (normalizeText query))
          else (clearItem it).title) ∧
        it'.answer = (if itemMatchesQuery it (normalizeText query)
          then (clearItem it).answer.map (fun d => hlRegion d (normalizeText query))
          else (clearItem it).answer)) := by
  have hbase : ∀ i it, s.items.get? i = some it →
      ((s.items.map clearItem).map (fun it2 =>
        if itemMatchesQuery it2 (normalizeText query) then hlItem (normalizeText query) it2
        else it2)).get? i =
      some (if itemMatchesQuery it (normalizeText query) then
        hlItem (normalizeText query) (clearItem it) else clearItem it) := by
    intro i it hi
    rw [ffma_items2_get?, hi, Option.map_some']
  refine ⟨?_, ?_, ?_, ?_, ?_⟩
  · intro hmi
    rw [ffma_unfold_none s query hq hmi]
    exact ⟨rfl, rfl⟩
  · intro f hmi
    obtain ⟨k, hk, hex, hmin⟩ := firstMatchIdx_some s.items 0 f hmi
    have hfk : f = k := by omega
    rw [ffma_unfold_some s query f hq hmi]
    refine ⟨openFaqItem_scrolls _ f, by rw [hfk]; exact hex, ?_⟩
    intro j it hj hget
    exact hmin j it (by omega) hget
  · intro i it hi hne
    cases hmi : firstMatchIdx (normalizeText query) 0 s.items with
    | none =>
        rw [ffma_unfold_none s query hq hmi]
        refine ⟨_, hbase i it hi, ?_, ?_, ?_⟩ <;>
          · by_cases hm : itemMatchesQuery it (normalizeText query) = true <;> simp [hm]
    | some f =>
        have hif : i ≠ f := fun hc => hne (by rw [hc]; exact hmi)
        rw [ffma_unfold_some s query f hq hmi, openFaqItem_items_ne hif]
        refine ⟨_, hbase i it hi, ?_, ?_, ?_⟩ <;>
          · by_cases hm : itemMatchesQuery it (normalizeText query) = true <;> simp [hm]
  · intro f it hmi hgf2
    rw [ffma_unfold_some s query f hq hmi]
    have hit2 : (({ s with
        items := (s.items.map clearItem).map (fun it2 =>
          if itemMatchesQuery it2 (normalizeText query) then hlItem (normalizeText query) it2
          else it2)
        scrolls := f :: s.scrolls } : CtrlState)).items.get? f =
        some (if itemMatchesQuery it (normalizeText query) then
          hlItem (normalizeText query) (clearItem it) else clearItem it) := hbase f it hgf2
    have hwX : (if itemMatchesQuery it (normalizeText query) then
        hlItem (normalizeText query) (clearItem it) else clearItem it).wrapper = it.wrapper := by
      by_cases hm : itemMatchesQuery it (normalizeText query) = true <;> simp [hm]
    have haX : (if itemMatchesQuery it (normalizeText query) then
        hlItem (normalizeText query) (clearItem it) else clearItem it).attr = it.attr := by
      by_cases hm : itemMatchesQuery it (normalizeText query) = true <;> simp [hm]
    have hvX : (if itemMatchesQuery it (normalizeText query) then
        hlItem (normalizeText query) (clearItem it) else clearItem it).visOpen = it.visOpen := by
      by_cases hm : itemMatchesQuery it (normalizeText query) = true <;> simp [hm]
    constructor
    · intro hw ha
      obtain ⟨hget, hset⟩ :=
        openFaqItem_spec_open hit2 (hwX.trans hw) (haX.trans ha)
      refine ⟨_, hget, ?_, rfl, ?_, hset⟩
      · rw [show ({ clickWrapper Actor.search (if itemMatchesQuery it (normalizeText query) then
          hlItem (normalizeText query) (clearItem it) else clearItem it) with
            attr := true } : Item).visOpen =
          !(if itemMatchesQuery it (normalizeText query) then
            hlItem (normalizeText query) (clearItem it) else clearItem it).visOpen from rfl]
        rw [hvX]
      · rw [show ({ clickWrapper Actor.search (if itemMatchesQuery it (normalizeText query) then
          hlItem (normalizeText query) (clearItem it) else clearItem it) with
            attr := true } : Item).openedBy =
          (if (if itemMatchesQuery it (normalizeText query) then
            hlItem (normalizeText query) (clearItem it) else clearItem it).visOpen then none
           else some Actor.search) from rfl]
        rw [hvX]
    · intro hskip
      have hskip2 : (if itemMatchesQuery it (normalizeText query) then
          hlItem (normalizeText query) (clearItem it) else clearItem it).wrapper = false ∨
          (if itemMatchesQuery it (normalizeText query) then
            hlItem (normalizeText query) (clearItem it) else clearItem it).attr = true := by
        cases hskip with
        | inl h1 => exact Or.inl (hwX.trans h1)
        | inr h2 => exact Or.inr (haX.trans h2)
      rw [openFaqItem_spec_skip hit2 hskip2]
      exact ⟨_, hit2, hvX, haX, rfl⟩
  · intro i it hi
    have htX : (if itemMatchesQuery it (normalizeText query) then
        hlItem (normalizeText query) (clearItem it) else clearItem it).title =
        (if itemMatchesQuery it (normalizeText query)
          then (clearItem it).title.map (fun d => hlRegion d (normalizeText query))
          else (clearItem it).title) := by
      by_cases hm : itemMatchesQuery it (normalizeText query) = true <;>
        simp [hm, hlItem]
    have hanX : (if itemMatchesQuery it (normalizeText query) then
        hlItem (normalizeText query) (clearItem it) else clearItem it).answer =
        (if itemMatchesQuery it (normalizeText query)
          then (clearItem it).answer.map (fun d => hlRegion d (normalizeText query))
          else (clearItem it).answer) := by
      by_cases hm : itemMatchesQuery it (normalizeText query) = true <;>
        simp [hm, hlItem]
    cases hmi : firstMatchIdx (normalizeText query) 0 s.items with
    | none =>
        rw [ffma_unfold_none s query hq hmi]
        exact ⟨_, hbase i it hi, htX, hanX⟩
    | some f =>
        rw [ffma_unfold_some s query f hq hmi]
        by_cases hif : i = f
        · subst hif
          have hit2 : (({ s with
              items := (s.items.map clearItem).map (fun it2 =>
                if itemMatchesQuery it2 (normalizeText query) then
                  hlItem (normalizeText query) it2 else it2)
              scrolls := i :: s.scrolls } : CtrlState)).items.get? i =
              some (if itemMatchesQuery it (normalizeText query) then
                hlItem (normalizeText query) (clearItem it) else clearItem it) := hbase i it hi
          by_cases hw2 : it.wrapper = true
          · by_cases ha2 : it.attr = false
            · have hwX : (if itemMatchesQuery it (normalizeText query) then
                  hlItem (normalizeText query) (clearItem it) else clearItem it).wrapper
                  = true := by
                by_cases hm : itemMatchesQuery it (normalizeText query) = true <;>
                  simp [hm, hw2]
              have haX : (if itemMatchesQuery it (normalizeText query) then
                  hlItem (normalizeText query) (clearItem it) else clearItem it).attr
                  = false := by
                by_cases hm : itemMatchesQuery it (normalizeText query) = true <;>
                  simp [hm, ha2]
              obtain ⟨hget, _⟩ := openFaqItem_spec_open hit2 hwX haX
              refine ⟨_, hget, ?_, ?_⟩
              · rw [show ({ clickWrapper Actor.search
                    (if itemMatchesQuery it (normalizeText query) then
                      hlItem (normalizeText query) (clearItem it) else clearItem it) with
                    attr := true } : Item).title =
                  (if itemMatchesQuery it (normalizeText query) then
                    hlItem (normalizeText query) (clearItem it) else clearItem it).title
                  from rfl]
                exact htX
              · rw [show ({ clickWrapper Actor.search
                    (if itemMatchesQuery it (normalizeText query) then
                      hlItem (normalizeText query) (clearItem it) else clearItem it) with
                    attr := true } : Item).answer =
                  (if itemMatchesQuery it (normalizeText query) then
                    hlItem (normalizeText query) (clearItem it) else clearItem it).answer
                  from rfl]
                exact hanX
            · have ha2' : it.attr = true := by revert ha2; cases it.attr <;> simp
              rw [openFaqItem_spec_skip hit2 (Or.inr (by
                by_cases hm : itemMatchesQuery it (normalizeText query) = true <;>
                  simp [hm, ha2']))]
              exact ⟨_, hit2, htX, hanX⟩
          · have hw2' : it.wrapper = false := by revert hw2; cases it.wrapper <;> simp
            rw [openFaqItem_spec_skip hit2 (Or.inl (by
              by_cases hm : itemMatchesQuery it (normalizeText query) = true <;>
                simp [hm, hw2']))]
            exact ⟨_, hit2, htX, hanX⟩
        · rw [openFaqItem_items_ne hif]
          exact ⟨_, hbase i it hi, htX, hanX⟩

/-- C5 counterexample to the literal claim: starting from a page-load state,
the user opens and closes the single item (leaving the marker attribute
set), then searches for a matching query.  The item is the first match and
is closed, yet the search leaves it closed and records nothing — the open
guard is the marker attribute, not openness. -/
theorem C5_counterexample :
    Reach sC5x ∧
    ((run exInit [.userClick 0, .userClick 0]).items.get? 0).map isFaqItemOpen = some false ∧
    ((run exInit [.userClick 0, .userClick 0]).items.get? 0).map (fun it =>
      itemMatchesQuery it (normalizeText "alp".data)) = some true ∧
    sC5x.scrolls = [0] ∧
    (sC5x.items.get? 0).map isFaqItemOpen = some false ∧
    sC5x.searchOpened = [] :=
  ⟨⟨[exItemA], [.userClick 0, .userClick 0, .search "alp".data], by decide, rfl⟩,
    by decide, by decide, by decide, by decide, by decide⟩

/-- Witness for C5 at the page-load state with the single matching item:
the first match is toggled open and recorded. -/
theorem C5_witness :
    ∃ it', (findFirstMatchAndAct exInit "alp".data).items.get? 0 = some it' ∧
      it'.visOpen = !exItemA.visOpen ∧ it'.attr = true ∧
      it'.openedBy = (if exItemA.visOpen then none else some Actor.search) ∧
      (findFirstMatchAndAct exInit "alp".data).searchOpened = 0 :: exInit.searchOpened :=
  ((C5_first_match_only exInit "alp".data (by decide)).2.2.2.1 0 exItemA (by decide)
    (by decide)).1 (by decide) (by decide)

/-! §16 Invariants of reachable controller states. -/

theorem invB_of_closed {it : Item} (h : it.visOpen = false) : invB it = true := by
  simp [invB, h]

theorem invB_clickWrapper {it : Item} (a : Actor) (hw : it.wrapper = true) :
    invB (clickWrapper a it) = true := by
  simp [invB, clickWrapper, hw]

theorem invB_clearItem (it : Item) : invB (clearItem it) = invB it := by
  rw [invB, invB, clearItem_visOpen, clearItem_wrapper, clearItem_answer_isSome,
    clearItem_attr]

theorem invB_hlItem (q : Str) (it : Item) : invB (hlItem q it) = invB it := by
  rw [invB, invB, hlItem_visOpen, hlItem_wrapper, hlItem_answer_isSome, hlItem_attr]

theorem invB_closeItem {it : Item} (h : invB it = true) : invB (closeItem it) = true := by
  rw [closeItem]
  cases hans : it.answer with
  | none =>
      cases hvo : it.visOpen <;> cases hw : it.wrapper <;> cases har : it.aria <;>
        simp_all [invB, isFaqItemOpen, clickWrapper, closeItem]
  | some d =>
      cases hvo : it.visOpen <;> cases hw : it.wrapper <;>
        simp_all [invB, isFaqItemOpen, clickWrapper, closeItem]

theorem invB_openify {it : Item} (hw : it.wrapper = true) :
    invB { clickWrapper Actor.search it with attr := true } = true := by
  simp [invB, clickWrapper, hw]

theorem invAll_clearMap {s : CtrlState} (h : invAll s) :
    invAll { s with items := s.items.map clearItem } := by
  intro i it hi
  rw [show ({ s with items := s.items.map clearItem } : CtrlState).items =
    s.items.map clearItem from rfl] at hi
  rw [get?_map] at hi
  cases h2 : s.items.get? i with
  | none => rw [h2] at hi; exact absurd hi (by simp)
  | some it0 =>
      rw [h2, Option.map_some'] at hi
      injection hi with hi
      rw [← hi, invB_clearItem]
      exact h i it0 h2

theorem invAll_closeSearchOpened {s : CtrlState} (keep : Item → Bool) (h : invAll s) :
    invAll (closeSearchOpened s keep) := by
  intro i it hi
  rw [closeSearchOpened_items_get? s keep i] at hi
  cases h2 : s.items.get? i with
  | none => rw [h2] at hi; exact absurd hi (by simp)
  | some it0 =>
      rw [h2, Option.map_some'] at hi
      injection hi with hi
      rw [← hi]
      by_cases hc : (s.searchOpened.contains i && !keep it0) = true
      · rw [if_pos hc]
        exact invB_closeItem (h i it0 h2)
      · rw [if_neg hc]
        exact h i it0 h2

theorem setInv_closeSearchOpened {s : CtrlState} (keep : Item → Bool) (h : setInv s) :
    setInv (closeSearchOpened s keep) := by
  intro i hi
  obtain ⟨hmem, hkeep⟩ := closeSearchOpened_set_mem hi
  obtain ⟨it, hit, hattr⟩ := h i hmem
  refine ⟨it, ?_, hattr⟩
  rw [closeSearchOpened_items_get? s keep i, hit, Option.map_some']
  have hk := hkeep it hit
  rw [hk]
  simp

theorem ffma_get?_none {s : CtrlState} {query : Str} (hq : ¬normalizeText query = [])
    {i : Nat} (h3 : s.items.get? i = none) :
    (findFirstMatchAndAct s query).items.get? i = none := by
  cases hmi : firstMatchIdx (normalizeText query) 0 s.items with
  | none =>
      rw [ffma_unfold_none s query hq hmi]
      rw [show ({ s with items := (s.items.map clearItem).map (fun it =>
        if itemMatchesQuery it (normalizeText query) then hlItem (normalizeText query) it
        else it) } : CtrlState).items.get? i =
        ((s.items.map clearItem).map (fun it =>
          if itemMatchesQuery it (normalizeText query) then hlItem (normalizeText query) it
          else it)).get? i from rfl, ffma_items2_get?, h3]
      rfl
  | some f =>
      rw [ffma_unfold_some s query f hq hmi]
      have hbridge : (({ s with
          items := (s.items.map clearItem).map (fun it2 =>
            if itemMatchesQuery it2 (normalizeText query) then
              hlItem (normalizeText query) it2 else it2)
          scrolls := f :: s.scrolls } : CtrlState)).items.get? i =
          Option.map (fun it =>
            if itemMatchesQuery it (normalizeText query) then
              hlItem (normalizeText query) (clearItem it) else clearItem it)
            (s.items.get? i) := ffma_items2_get? s (normalizeText query) i
      by_cases hif : i = f
      · subst hif
        rw [openFaqItem_none (by rw [hbridge, h3]; rfl)]
        rw [hbridge, h3]
        rfl
      · rw [openFaqItem_items_ne hif, hbridge, h3]
        rfl

theorem ffma_get?_some {s : CtrlState} {query : Str} (hq : ¬normalizeText query = [])
    {i : Nat} {it0 : Item} (h3 : s.items.get? i = some it0) :
    ∃ it, (findFirstMatchAndAct s query).items.get? i = some it ∧
      (it = (if itemMatchesQuery it0 (normalizeText query) then
          hlItem (normalizeText query) (clearItem it0) else clearItem it0) ∨
        (it0.wrapper = true ∧ it0.attr = false ∧
          it = { clickWrapper Actor.search (if itemMatchesQuery it0 (normalizeText query) then
            hlItem (normalizeText query) (clearItem it0) else clearItem it0) with
            attr := true })) := by
  have hwX : (if itemMatchesQuery it0 (normalizeText query) then
      hlItem (normalizeText query) (clearItem it0) else clearItem it0).wrapper
      = it0.wrapper := by
    by_cases hm : itemMatchesQuery it0 (normalizeText query) = true <;> simp [hm]
  have haX : (if itemMatchesQuery it0 (normalizeText query) then
      hlItem (normalizeText query) (clearItem it0) else clearItem it0).attr = it0.attr := by
    by_cases hm : itemMatchesQuery it0 (normalizeText query) = true <;> simp [hm]
  cases hmi : firstMatchIdx (normalizeText query) 0 s.items with
  | none =>
      rw [ffma_unfold_none s query hq hmi]
      refine ⟨_, ?_, Or.inl rfl⟩
      rw [show ({ s with items := (s.items.map clearItem).map (fun it =>
        if itemMatchesQuery it (normalizeText query) then hlItem (normalizeText query) it
        else it) } : CtrlState).items.get? i =
        ((s.items.map clearItem).map (fun it =>
          if itemMatchesQuery it (normalizeText query) then hlItem (normalizeText query) it
          else it)).get? i from rfl, ffma_items2_get?, h3, Option.map_some']
  | some f =>
      rw [ffma_unfold_some s query f hq hmi]
      have hit2 : (({ s with
          items := (s.items.map clearItem).map (fun it2 =>
            if itemMatchesQuery it2 (normalizeText query) then
              hlItem (normalizeText query) it2 else it2)
          scrolls := f :: s.scrolls } : CtrlState)).items.get? i =
          some (if itemMatchesQuery it0 (normalizeText query) then
            hlItem (normalizeText query) (clearItem it0) else clearItem it0) := by
        rw [show (({ s with
          items := (s.items.map clearItem).map (fun it2 =>
            if itemMatchesQuery it2 (normalizeText query) then
              hlItem (normalizeText query) it2 else it2)
          scrolls := f :: s.scrolls } : CtrlState)).items.get? i =
          ((s.items.map clearItem).map (fun it2 =>
            if itemMatchesQuery it2 (normalizeText query) then
              hlItem (normalizeText query) it2 else it2)).get? i from rfl,
          ffma_items2_get?, h3, Option.map_some']
      by_cases hif : i = f
      · subst hif
        by_cases hw : it0.wrapper = true
        · by_cases ha : it0.attr = false
          · obtain ⟨hget, _⟩ := openFaqItem_spec_open hit2 (hwX.trans hw) (haX.trans ha)
            exact ⟨_, hget, Or.inr ⟨hw, ha, rfl⟩⟩
          · have ha' : it0.attr = true := by revert ha; cases it0.attr <;> simp
            rw [openFaqItem_spec_skip hit2 (Or.inr (haX.trans ha'))]
            exact ⟨_, hit2, Or.inl rfl⟩
        · have hw' : it0.wrapper = false := by revert hw; cases it0.wrapper <;> simp
          rw [openFaqItem_spec_skip hit2 (Or.inl (hwX.trans hw'))]
          exact ⟨_, hit2, Or.inl rfl⟩
      · rw [openFaqItem_items_ne hif]
        exact ⟨_, hit2, Or.inl rfl⟩

theorem invAll_ffma {s : CtrlState} (query : Str) (h1 : invAll s) :
    invAll (findFirstMatchAndAct s query) := by
  by_cases hq : normalizeText query = []
  · rw [findFirstMatchAndAct, if_pos hq]
    exact h1
  · intro i it hi
    cases h3 : s.items.get? i with
    | none => rw [ffma_get?_none hq h3] at hi; exact absurd hi (by simp)
    | some it0 =>
        obtain ⟨it', hit', hcase⟩ := ffma_get?_some hq h3
        rw [hit'] at hi
        injection hi with hi
        subst hi
        cases hcase with
        | inl h4 =>
            rw [h4]
            have := h1 i it0 h3
            by_cases hm : itemMatchesQuery it0 (normalizeText query) = true <;>
              simp [hm, invB_hlItem, invB_clearItem, this]
        | inr h4 =>
            rw [h4.2.2]
            exact invB_openify (by
              by_cases hm : itemMatchesQuery it0 (normalizeText query) = true <;>
                simp [hm, h4.1])

theorem setInv_ffma {s : CtrlState} (query : Str) (h2 : setInv s) :
    setInv (findFirstMatchAndAct s query) := by
  by_cases hq : normalizeText query = []
  · rw [findFirstMatchAndAct, if_pos hq]
    exact h2
  · have hold : ∀ i, i ∈ s.searchOpened →
        ∃ it, (findFirstMatchAndAct s query).items.get? i = some it ∧ it.attr = true := by
      intro i hi
      obtain ⟨it0, hit0, ha⟩ := h2 i hi
      obtain ⟨it, hit, hcase⟩ := ffma_get?_some hq hit0
      refine ⟨it, hit, ?_⟩
      cases hcase with
      | inl h4 =>
          rw [h4]
          by_cases hm : itemMatchesQuery it0 (normalizeText query) = true <;> simp [hm, ha]
      | inr h4 => rw [h4.2.2]
    intro i hi
    cases hmi : firstMatchIdx (normalizeText query) 0 s.items with
    | none =>
        have hi' : i ∈ s.searchOpened := by
          rw [ffma_unfold_none s query hq hmi] at hi
          exact hi
        exact hold i hi'
    | some f =>
        have hi2 : i ∈ (openFaqItem
            ({ s with
              items := (s.items.map clearItem).map (fun it2 =>
                if itemMatchesQuery it2 (normalizeText query) then
                  hlItem (normalizeText query) it2 else it2)
              scrolls := f :: s.scrolls } : CtrlState) f).searchOpened := by
          rw [ffma_unfold_some s query f hq hmi] at hi
          exact hi
        cases openFaqItem_set_mem hi2 with
        | inr hiold => exact hold i hiold
        | inl hif =>
            subst hif
            cases h3 : s.items.get? i with
            | none =>
                exfalso
                have hmem := hi2
                have hbridge : (({ s with
                    items := (s.items.map clearItem).map (fun it2 =>
                      if itemMatchesQuery it2 (normalizeText query) then
                        hlItem (normalizeText query) it2 else it2)
                    scrolls := i :: s.scrolls } : CtrlState)).items.get? i = none := by
                  rw [show (({ s with
                    items := (s.items.map clearItem).map (fun it2 =>
                      if itemMatchesQuery it2 (normalizeText query) then
                        hlItem (normalizeText query) it2 else it2)
                    scrolls := i :: s.scrolls } : CtrlState)).items.get? i =
                    ((s.items.map clearItem).map (fun it2 =>
                      if itemMatchesQuery it2 (normalizeText query) then
                        hlItem (normalizeText query) it2 else it2)).get? i from rfl,
                    ffma_items2_get?, h3]
                  rfl
                rw [openFaqItem_none hbridge] at hmem
                have hmem' : i ∈ s.searchOpened := hmem
                obtain ⟨it0, hit0, _⟩ := h2 i hmem'
                rw [h3] at hit0
                exact Option.noConfusion hit0
            | some it0 =>
                obtain ⟨it, hit, hcase⟩ := ffma_get?_some hq h3
                refine ⟨it, hit, ?_⟩
                cases hcase with
                | inr h4 => rw [h4.2.2]
                | inl h4 =>
                    have hit2 : (({ s with
                        items := (s.items.map clearItem).map (fun it2 =>
                          if itemMatchesQuery it2 (normalizeText query) then
                            hlItem (normalizeText query) it2 else it2)
                        scrolls := i :: s.scrolls } : CtrlState)).items.get? i =
                        some (if itemMatchesQuery it0 (normalizeText query) then
                          hlItem (normalizeText query) (clearItem it0) else clearItem it0) := by
                      rw [show (({ s with
                        items := (s.items.map clearItem).map (fun it2 =>
                          if itemMatchesQuery it2 (normalizeText query) then
                            hlItem (normalizeText query) it2 else it2)
                        scrolls := i :: s.scrolls } : CtrlState)).items.get? i =
                        ((s.items.map clearItem).map (fun it2 =>
                          if itemMatchesQuery it2 (normalizeText query) then
                            hlItem (normalizeText query) it2 else it2)).get? i from rfl,
                        ffma_items2_get?, h3, Option.map_some']
                    by_cases hw : it0.wrapper = true
                    · by_cases ha : it0.attr = false
                      · have hwX : (if itemMatchesQuery it0 (normalizeText query) then
                            hlItem (normalizeText query) (clearItem it0) else
                              clearItem it0).wrapper = true := by
                          by_cases hm : itemMatchesQuery it0 (normalizeText query) = true <;>
                            simp [hm, hw]
                        have haX : (if itemMatchesQuery it0 (normalizeText query) then
                            hlItem (normalizeText query) (clearItem it0) else
                              clearItem it0).attr = false := by
                          by_cases hm : itemMatchesQuery it0 (normalizeText query) = true <;>
                            simp [hm, ha]
                        obtain ⟨hget, _⟩ := openFaqItem_spec_open hit2 hwX haX
                        have : (findFirstMatchAndAct s query).items.get? i =
                            some { clickWrapper Actor.search
                              (if itemMatchesQuery it0 (normalizeText query) then
                                hlItem (normalizeText query) (clearItem it0) else
                                  clearItem it0) with attr := true } := by
                          rw [ffma_unfold_some s query i hq hmi]
                          exact hget
                        rw [hit] at this
                        injection this with this
                        rw [this]
                      · have ha' : it0.attr = true := by revert ha; cases it0.attr <;> simp
                        rw [h4]
                        by_cases hm : itemMatchesQuery it0 (normalizeText query) = true <;>
                          simp [hm, ha']
                    · have hw' : it0.wrapper = false := by
                        revert hw; cases it0.wrapper <;> simp
                      have hwX : (if itemMatchesQuery it0 (normalizeText query) then
                          hlItem (normalizeText query) (clearItem it0) else
                            clearItem it0).wrapper = false := by
                        by_cases hm : itemMatchesQuery it0 (normalizeText query) = true <;>
                          simp [hm, hw']
                      have hi3 : i ∈ s.searchOpened := by
                        rw [openFaqItem_spec_skip hit2 (Or.inl hwX)] at hi2
                        exact hi2
                      obtain ⟨it1, hit1, hattr1⟩ := h2 i hi3
                      rw [h3] at hit1
                      injection hit1 with hit1
                      have hattr0 : it0.attr = true := by rw [hit1]; exact hattr1
                      rw [h4]
                      by_cases hm : itemMatchesQuery it0 (normalizeText query) = true <;>
                        simp [hm, hattr0]

theorem setInv_clearMap {s : CtrlState} (h : setInv s) :
    setInv { s with items := s.items.map clearItem } := by
  intro i hi
  have hi' : i ∈ s.searchOpened := hi
  obtain ⟨it, hit, ha⟩ := h i hi'
  refine ⟨clearItem it, ?_, by rw [clearItem_attr]; exact ha⟩
  rw [show ({ s with items := s.items.map clearItem } : CtrlState).items =
    s.items.map clearItem from rfl, get?_map, hit, Option.map_some']

theorem invAll_onSearch {s : CtrlState} (value : Str) (h1 : invAll s) (_h2 : setInv s) :
    invAll (onSearch s value) := by
  rw [onSearch]
  by_cases hv : trimStr value = []
  · rw [if_pos hv]
    exact invAll_closeSearchOpened _ (invAll_clearMap h1)
  · rw [if_neg hv]
    exact invAll_ffma value (invAll_closeSearchOpened _ h1)

theorem setInv_onSearch {s : CtrlState} (value : Str) (_h1 : invAll s) (h2 : setInv s) :
    setInv (onSearch s value) := by
  rw [onSearch]
  by_cases hv : trimStr value = []
  · rw [if_pos hv]
    exact setInv_closeSearchOpened _ (setInv_clearMap h2)
  · rw [if_neg hv]
    exact setInv_ffma value (setInv_closeSearchOpened _ h2)

theorem invAll_userClick {s : CtrlState} (i : Nat) (h1 : invAll s) :
    invAll (step s (.userClick i)) := by
  cases hi : s.items.get? i with
  | none => simp only [step, hi]; exact h1
  | some it =>
      simp only [step, hi]
      cases hw : it.wrapper
      · rw [if_neg (by simp)]
        exact h1
      · rw [if_pos rfl]
        intro j it2 hj
        by_cases hij : j = i
        · subst hij
          have hlen : j < s.items.length := by
            rw [List.get?_eq_getElem?] at hi
            exact (List.getElem?_eq_some_iff.mp hi).1
          rw [show ({ s with items := s.items.set j (clickWrapper Actor.user it) } :
            CtrlState).items = s.items.set j (clickWrapper Actor.user it) from rfl,
            List.get?_eq_getElem?, List.getElem?_set_self hlen] at hj
          injection hj with hj
          rw [← hj]
          exact invB_clickWrapper Actor.user hw
        · rw [show ({ s with items := s.items.set i (clickWrapper Actor.user it) } :
            CtrlState).items = s.items.set i (clickWrapper Actor.user it) from rfl,
            List.get?_eq_getElem?, List.getElem?_set_ne (fun hc => hij hc.symm),
            ← List.get?_eq_getElem?] at hj
          exact h1 j it2 hj

theorem setInv_userClick {s : CtrlState} (i : Nat) (h2 : setInv s) :
    setInv (step s (.userClick i)) := by
  cases hi : s.items.get? i with
  | none => simp only [step, hi]; exact h2
  | some it =>
      simp only [step, hi]
      cases hw : it.wrapper
      · rw [if_neg (by simp)]
        exact h2
      · rw [if_pos rfl]
        intro j hj
        have hj' : j ∈ s.searchOpened := hj
        obtain ⟨it2, hit2, ha2⟩ := h2 j hj'
        by_cases hij : j = i
        · subst hij
          have hlen : j < s.items.length := by
            rw [List.get?_eq_getElem?] at hi
            exact (List.getElem?_eq_some_iff.mp hi).1
          refine ⟨clickWrapper Actor.user it, ?_, rfl⟩
          rw [show ({ s with items := s.items.set j (clickWrapper Actor.user it) } :
            CtrlState).items = s.items.set j (clickWrapper Actor.user it) from rfl,
            List.get?_eq_getElem?, List.getElem?_set_self hlen]
        · refine ⟨it2, ?_, ha2⟩
          rw [show ({ s with items := s.items.set i (clickWrapper Actor.user it) } :
            CtrlState).items = s.items.set i (clickWrapper Actor.user it) from rfl,
            List.get?_eq_getElem?, List.getElem?_set_ne (fun hc => hij hc.symm),
            ← List.get?_eq_getElem?]
          exact hit2

theorem inv_step {s : CtrlState} (e : Event) (h1 : invAll s) (h2 : setInv s) :
    invAll (step s e) ∧ setInv (step s e) := by
  cases e with
  | userClick i => exact ⟨invAll_userClick i h1, setInv_userClick i h2⟩
  | search v => exact ⟨invAll_onSearch v h1 h2, setInv_onSearch v h1 h2⟩

theorem inv_run : ∀ (es : List Event) (s0 : CtrlState), invAll s0 → setInv s0 →
    invAll (run s0 es) ∧ setInv (run s0 es)
  | [], s0, h1, h2 => ⟨h1, h2⟩
  | e :: es, s0, h1, h2 => by
      rw [show run s0 (e :: es) = run (step s0 e) es from rfl]
      obtain ⟨h1', h2'⟩ := inv_step e h1 h2
      exact inv_run es (step s0 e) h1' h2'

theorem reach_inv {s : CtrlState} (h : Reach s) : invAll s ∧ setInv s := by
  obtain ⟨items0, es, h0, rfl⟩ := h
  apply inv_run
  · intro i it hi
    have hmem : it ∈ items0 := by
      rw [show (mkInit items0).items = items0 from rfl] at hi
      exact List.get?_mem hi
    have hok := List.all_eq_true.mp h0 it hmem
    rw [initOK] at hok
    simp only [Bool.and_eq_true, Bool.not_eq_true'] at hok
    exact invB_of_closed hok.1.1
  · intro i hi
    exact absurd hi (by rw [show (mkInit items0).searchOpened = [] from rfl]; simp)

theorem ffma_keeps_open {s : CtrlState} (query : Str) (h1 : invAll s) {i : Nat} {it : Item}
    (hi : s.items.get? i = some it) (hopen : isFaqItemOpen it = true) :
    ∃ it', (findFirstMatchAndAct s query).items.get? i = some it' ∧
      isFaqItemOpen it' = true := by
  by_cases hq : normalizeText query = []
  · rw [findFirstMatchAndAct, if_pos hq]
    exact ⟨it, hi, hopen⟩
  · obtain ⟨it', hit', hcase⟩ := ffma_get?_some hq hi
    refine ⟨it', hit', ?_⟩
    cases hcase with
    | inl h4 =>
        rw [h4]
        by_cases hm : itemMatchesQuery it (normalizeText query) = true <;> simp [hm, hopen]
    | inr h4 =>
        cases hans : it.answer with
        | some d =>
            exfalso
            have hinv := h1 i it hi
            rw [invB] at hinv
            simp only [Bool.and_eq_true, Bool.or_eq_true, Bool.not_eq_true'] at hinv
            have hvo : it.visOpen = true := by
              rw [isFaqItemOpen, hans] at hopen
              simpa using hopen
            cases hinv.2 with
            | inl h5 =>
                rw [hans, hvo] at h5
                simp at h5
            | inr h5 =>
                rw [h4.2.1] at h5
                exact Bool.noConfusion h5
        | none =>
            rw [h4.2.2]
            rw [show isFaqItemOpen { clickWrapper Actor.search
              (if itemMatchesQuery it (normalizeText query) then
                hlItem (normalizeText query) (clearItem it) else clearItem it) with
                attr := true } =
              (if (if itemMatchesQuery it (normalizeText query) then
                hlItem (normalizeText query) (clearItem it) else clearItem it).answer.isSome
               then !(if itemMatchesQuery it (normalizeText query) then
                hlItem (normalizeText query) (clearItem it) else clearItem it).visOpen
               else (if itemMatchesQuery it (normalizeText query) then
                hlItem (normalizeText query) (clearItem it) else clearItem it).aria)
              from rfl]
            have hansX : (if itemMatchesQuery it (normalizeText query) then
                hlItem (normalizeText query) (clearItem it) else clearItem it).answer.isSome
                = false := by
              by_cases hm : itemMatchesQuery it (normalizeText query) = true <;>
                simp [hm, hans]
            rw [hansX]
            have hariaX : (if itemMatchesQuery it (normalizeText query) then
                hlItem (normalizeText query) (clearItem it) else clearItem it).aria
                = it.aria := by
              by_cases hm : itemMatchesQuery it (normalizeText query) = true <;> simp [hm]
            rw [if_neg (by simp)]
            rw [hariaX]
            rw [isFaqItemOpen, hans] at hopen
            simpa using hopen

/-- C6 counterexample to the literal claim: the search opens the item, the
user closes it and reopens it with direct clicks (a user-initiated open),
yet the item is still in the search-opened set; the next non-matching query
then auto-closes it.  The user click set — did not clear — the
`data-opened-by-search` marker. -/
theorem C6_counterexample :
    Reach sC6a ∧
    (sC6a.items.get? 0).map (fun it => it.openedBy) = some (some Actor.user) ∧
    (sC6a.items.get? 0).map (fun it => it.attr) = some true ∧
    (sC6a.items.get? 0).map isFaqItemOpen = some true ∧
    0 ∈ sC6a.searchOpened ∧
    (sC6b.items.get? 0).map isFaqItemOpen = some false :=
  ⟨⟨[exItemA], evsC6, by decide, rfl⟩, by decide, by decide, by decide, by decide, by decide⟩

/-- C6 (amended): a user-initiated open or close sets the item's
`data-opened-by-search` marker attribute (it does not clear it) and leaves
the search-opened set unchanged; the protection this yields is that an item
the search never opened (not in the search-opened set) is never closed by a
later search execution — but an item that search opened stays in the set
through user clicks and can still be auto-closed by a later query change. -/
theorem C6_user_click_marker :
    (∀ (s : CtrlState) (i : Nat) (it : Item), s.items.get? i = some it → it.wrapper = true →
      (step s (.userClick i)).searchOpened = s.searchOpened ∧
      ∃ it', (step s (.userClick i)).items.get? i = some it' ∧ it'.attr = true ∧
        it'.visOpen = !it.visOpen) ∧
    (∀ s : CtrlState, Reach s → ∀ (value : Str) (i : Nat) (it : Item),
      s.items.get? i = some it → i ∉ s.searchOpened → isFaqItemOpen it = true →
      ∃ it', (onSearch s value).items.get? i = some it' ∧ isFaqItemOpen it' = true) := by
  constructor
  · intro s i it hi hw
    have hlen : i < s.items.length := by
      rw [List.get?_eq_getElem?] at hi
      exact (List.getElem?_eq_some_iff.mp hi).1
    simp only [step, hi, hw, if_true]
    refine ⟨trivial, clickWrapper Actor.user it, ?_, rfl, rfl⟩
    rw [List.get?_eq_getElem?, List.getElem?_set_self hlen]
  · intro s hreach value i it hi hnotin hopen
    have h1 := (reach_inv hreach).1
    rw [onSearch]
    by_cases hv : trimStr value = []
    · rw [if_pos hv]
      have hs1 : ({ s with items := s.items.map clearItem } : CtrlState).items.get? i =
          some (clearItem it) := by
        rw [show ({ s with items := s.items.map clearItem } : CtrlState).items =
          s.items.map clearItem from rfl, get?_map, hi, Option.map_some']
      refine ⟨clearItem it, ?_, by rw [isFaqItemOpen_clearItem]; exact hopen⟩
      rw [closeSearchOpened_items_get?]
      rw [show ({ s with items := s.items.map clearItem } : CtrlState).searchOpened =
        s.searchOpened from rfl, hs1, Option.map_some']
      have hc : s.searchOpened.contains i = false := by
        cases hcc : s.searchOpened.contains i
        · rfl
        · exact absurd (List.elem_iff.mp hcc) hnotin
      rw [hc]
      rfl
    · rw [if_neg hv]
      have hs2get : (closeSearchOpened s (fun it =>
          itemMatchesQuery it (normalizeText value))).items.get? i = some it := by
        rw [closeSearchOpened_items_get?_notin hnotin]
        exact hi
      have hs2inv : invAll (closeSearchOpened s (fun it =>
          itemMatchesQuery it (normalizeText value))) :=
        invAll_closeSearchOpened _ h1
      exact ffma_keeps_open value hs2inv hs2get hopen

/-- Witness for C6: the user opened the single item directly (the search
never touched it); a later search execution leaves it open, and the user
click set the marker while leaving the search-opened set unchanged. -/
theorem C6_witness :
    ((step exInit (.userClick 0)).searchOpened = exInit.searchOpened ∧
      ∃ it', (step exInit (.userClick 0)).items.get? 0 = some it' ∧ it'.attr = true ∧
        it'.visOpen = !exItemA.visOpen) ∧
    ∃ it', (onSearch sC6w "zzz".data).items.get? 0 = some it' ∧ isFaqItemOpen it' = true :=
  ⟨C6_user_click_marker.1 exInit 0 exItemA (by decide) (by decide),
    C6_user_click_marker.2 sC6w ⟨[exItemA], [.userClick 0], by decide, rfl⟩ "zzz".data 0
      ⟨true, some exTitleA, some exAnsA, true, false, true, some Actor.user⟩
      (by decide) (by decide) (by decide)⟩

/-- C7 counterexample to the literal claim: after the search opened the item
and the user closed and reopened it by direct clicks, the search-opened set
still contains the item although its current opening action was performed by
the user. -/
theorem C7_counterexample :
    Reach sC6a ∧ 0 ∈ sC6a.searchOpened ∧
    (sC6a.items.get? 0).map (fun it => it.openedBy) = some (some Actor.user) ∧
    (sC6a.items.get? 0).map isFaqItemOpen = some true :=
  ⟨⟨[exItemA], evsC6, by decide, rfl⟩, by decide, by decide, by decide⟩

/-- C7 (amended): in every reachable state of the search controller, every
member of the search-opened set is a valid item index whose item carries the
`data-opened-by-search` marker attribute; items enter the set only through
the controller's own open action.  The stronger provenance reading — that
the set never contains an item currently opened by a direct user click —
fails, since a user may reopen an item that search opened earlier. -/
theorem C7_search_opened_invariant : ∀ s : CtrlState, Reach s →
    ∀ i, i ∈ s.searchOpened → ∃ it, s.items.get? i = some it ∧ it.attr = true :=
  fun _ h i hi => (reach_inv h).2 i hi

/-- Witness for C7 at the reachable state where the search opened the item. -/
theorem C7_witness : ∃ it, sS1.items.get? 0 = some it ∧ it.attr = true :=
  C7_search_opened_invariant sS1 ⟨[exItemA], [.search "alp".data], by decide, rfl⟩ 0
    (by decide)

/-- C8: executing the search flow with an empty or whitespace-only query
never changes the flattened text content of any FAQ item's title or answer
region; moreover the highlight operation on the empty query is a complete
no-op and the clear operation never alters flattened text content. -/
theorem C8_empty_query_noop :
    (∀ (s : CtrlState) (value : Str), trimStr value = [] → ∀ i it,
      s.items.get? i = some it →
      ∃ it', (onSearch s value).items.get? i = some it' ∧
        it'.title.map textContent = it.title.map textContent ∧
        it'.answer.map textContent = it.answer.map textContent) ∧
    (∀ d : Dom, highlightMatchesInElement d [] = some d) ∧
    (∀ d : Dom, textContent (clearHighlights d) = textContent d) := by
  refine ⟨?_, fun d => by rw [highlightMatchesInElement]; simp,
    textContent_clearHighlights⟩
  intro s value hv i it hi
  rw [onSearch, if_pos hv]
  have hs1 : ({ s with items := s.items.map clearItem } : CtrlState).items.get? i =
      some (clearItem it) := by
    rw [show ({ s with items := s.items.map clearItem } : CtrlState).items =
      s.items.map clearItem from rfl, get?_map, hi, Option.map_some']
  have htc : ∀ it2 : Item, (clearItem it2).title.map textContent =
      it2.title.map textContent ∧
      (clearItem it2).answer.map textContent = it2.answer.map textContent := by
    intro it2
    constructor
    · rw [clearItem]
      cases it2.title with
      | none => rfl
      | some d => simp [textContent_clearHighlights]
    · rw [clearItem]
      cases it2.answer with
      | none => rfl
      | some d => simp [textContent_clearHighlights]
  have hclose_t : (closeItem (clearItem it)).title = (clearItem it).title := by
    by_cases hco : isFaqItemOpen it = true ∧ it.wrapper = true <;> simp [closeItem, hco]
  have hclose_a : (closeItem (clearItem it)).answer = (clearItem it).answer := by
    by_cases hco : isFaqItemOpen it = true ∧ it.wrapper = true <;> simp [closeItem, hco]
  have hget := closeSearchOpened_items_get?
    ({ s with items := s.items.map clearItem }) (fun _ => false) i
  rw [hs1, Option.map_some'] at hget
  by_cases hc : (({ s with items := s.items.map clearItem } :
      CtrlState).searchOpened.contains i && !(fun _ : Item => false) (clearItem it)) = true
  · rw [if_pos hc] at hget
    exact ⟨_, hget, by rw [hclose_t]; exact (htc it).1, by rw [hclose_a]; exact (htc it).2⟩
  · rw [if_neg hc] at hget
    exact ⟨_, hget, (htc it).1, (htc it).2⟩

/-- Witness for C8: a whitespace-only search on the state where "alp" is
highlighted leaves the item's text content unchanged. -/
theorem C8_witness :
    ∃ it', (onSearch sS1 exWs).items.get? 0 = some it' ∧
      it'.title.map textContent = s1item0.title.map textContent ∧
      it'.answer.map textContent = s1item0.answer.map textContent :=
  C8_empty_query_noop.1 sS1 exWs (by decide) 0 s1item0 (by decide)
